import Mathlib

set_option maxHeartbeats 1000000

attribute [local semireducible] Rat.add Rat.sub Rat.mul Rat.inv Rat.ofScientific

/-
Verification development for the authoritative game server of
the-awesome-game (packages/server/src plus its state.ts, hub-api.ts).
Numbers are modelled as JsVal, a faithful shallow embedding of JS doubles
restricted to rational magnitudes: NaN, plus/minus infinity, the undefined
value (which arithmetic coerces to NaN), and finite rationals.  Square
roots never need to be computed: every comparison of the form
sqrt d OP r in the source is embedded by the equivalent exact predicate on
d and r (jsSqrtLtB, jsSqrtGtB below).
-/

namespace AwesomeGame

/-- JS dynamic number value: undefined, NaN, plus/minus Infinity, or a
finite value (modelled as a rational). -/
inductive JsVal where
  | undef
  | nan
  | posInf
  | negInf
  | num (q : ℚ)
deriving DecidableEq

namespace JsVal

/-- The JS typeof test: typeof v is the string number.  All numeric values
(including NaN and the infinities) pass; undefined does not. -/
def isNumType : JsVal → Bool
  | .undef => false
  | _ => true

/-- ToNumber coercion applied by JS arithmetic: undefined becomes NaN. -/
def toNum : JsVal → JsVal
  | .undef => .nan
  | v => v

/-- JS addition. -/
def jsAdd (a b : JsVal) : JsVal :=
  match toNum a, toNum b with
  | .num x, .num y => .num (x + y)
  | .posInf, .negInf => .nan
  | .negInf, .posInf => .nan
  | .posInf, .posInf => .posInf
  | .posInf, .num _ => .posInf
  | .num _, .posInf => .posInf
  | .negInf, .negInf => .negInf
  | .negInf, .num _ => .negInf
  | .num _, .negInf => .negInf
  | _, _ => .nan

/-- JS unary negation. -/
def jsNeg : JsVal → JsVal
  | .undef => .nan
  | .nan => .nan
  | .posInf => .negInf
  | .negInf => .posInf
  | .num q => .num (-q)

/-- JS subtraction. -/
def jsSub (a b : JsVal) : JsVal := jsAdd a (jsNeg b)

/-- JS multiplication. -/
def jsMul (a b : JsVal) : JsVal :=
  match toNum a, toNum b with
  | .num x, .num y => .num (x * y)
  | .posInf, .posInf => .posInf
  | .posInf, .negInf => .negInf
  | .negInf, .posInf => .negInf
  | .negInf, .negInf => .posInf
  | .posInf, .num y => if 0 < y then .posInf else if y < 0 then .negInf else .nan
  | .negInf, .num y => if 0 < y then .negInf else if y < 0 then .posInf else .nan
  | .num x, .posInf => if 0 < x then .posInf else if x < 0 then .negInf else .nan
  | .num x, .negInf => if 0 < x then .negInf else if x < 0 then .posInf else .nan
  | _, _ => .nan

/-- JS division (signed zeros collapsed to one zero). -/
def jsDiv (a b : JsVal) : JsVal :=
  match toNum a, toNum b with
  | .num x, .num y =>
      if y = 0 then (if 0 < x then .posInf else if x < 0 then .negInf else .nan)
      else .num (x / y)
  | .num _, .posInf => .num 0
  | .num _, .negInf => .num 0
  | .posInf, .num y => if y < 0 then .negInf else .posInf
  | .negInf, .num y => if y < 0 then .posInf else .negInf
  | _, _ => .nan

/-- JS Math.min: NaN-propagating minimum. -/
def jsMin (a b : JsVal) : JsVal :=
  match toNum a, toNum b with
  | .num x, .num y => .num (min x y)
  | .negInf, _ => .negInf
  | _, .negInf => .negInf
  | .posInf, v => v
  | v, .posInf => v
  | _, _ => .nan

/-- JS Math.max: NaN-propagating maximum. -/
def jsMax (a b : JsVal) : JsVal :=
  match toNum a, toNum b with
  | .num x, .num y => .num (max x y)
  | .posInf, _ => .posInf
  | _, .posInf => .posInf
  | .negInf, v => v
  | v, .negInf => v
  | _, _ => .nan

/-- JS Math.abs. -/
def jsAbs : JsVal → JsVal
  | .undef => .nan
  | .nan => .nan
  | .posInf => .posInf
  | .negInf => .posInf
  | .num q => .num |q|

/-- JS strict less-than: false whenever NaN (or undefined) is involved. -/
def jsLtB (a b : JsVal) : Bool :=
  match toNum a, toNum b with
  | .num x, .num y => decide (x < y)
  | .negInf, .negInf => false
  | .negInf, .posInf => true
  | .negInf, .num _ => true
  | .posInf, _ => false
  | .num _, .posInf => true
  | .num _, .negInf => false
  | _, _ => false

/-- JS less-or-equal: false whenever NaN (or undefined) is involved. -/
def jsLeB (a b : JsVal) : Bool :=
  match toNum a, toNum b with
  | .num x, .num y => decide (x ≤ y)
  | .negInf, .negInf => true
  | .negInf, .posInf => true
  | .negInf, .num _ => true
  | .posInf, .posInf => true
  | .posInf, .negInf => false
  | .posInf, .num _ => false
  | .num _, .posInf => true
  | .num _, .negInf => false
  | _, _ => false

/-- JS greater-than, via the mirrored less-than. -/
def jsGtB (a b : JsVal) : Bool := jsLtB b a

/-- JS greater-or-equal, via the mirrored less-or-equal. -/
def jsGeB (a b : JsVal) : Bool := jsLeB b a

/-- JS truthiness test restricted to numeric values: undefined, NaN and
zero are falsy. -/
def jsFalsy : JsVal → Bool
  | .undef => true
  | .nan => true
  | .num q => decide (q = 0)
  | _ => false

/-- The JS idiom v or-else 0. -/
def jsOrZero (v : JsVal) : JsVal := if jsFalsy v then .num 0 else v

/-- Exact embedding of the comparison Math.sqrt a < b from the source.
For a finite nonnegative a and finite b this is 0 < b and a < b * b; a
negative radicand yields NaN, so the comparison is false. -/
def jsSqrtLtB (a b : JsVal) : Bool :=
  match toNum a, toNum b with
  | .num q, .num r => decide (0 ≤ q) && decide (0 < r) && decide (q < r * r)
  | .num q, .posInf => decide (0 ≤ q)
  | .posInf, _ => false
  | _, _ => false

/-- Exact embedding of the comparison Math.sqrt a > b from the source. -/
def jsSqrtGtB (a b : JsVal) : Bool :=
  match toNum a, toNum b with
  | .num q, .num r => decide (0 ≤ q) && (decide (r < 0) || decide (r * r < q))
  | .num q, .negInf => decide (0 ≤ q)
  | .posInf, .posInf => false
  | .posInf, .nan => false
  | .posInf, _ => true
  | _, _ => false

@[simp] theorem jsAdd_num (a b : ℚ) : jsAdd (.num a) (.num b) = .num (a + b) := rfl

@[simp] theorem jsNeg_num (a : ℚ) : jsNeg (.num a) = .num (-a) := rfl

@[simp] theorem jsSub_num (a b : ℚ) : jsSub (.num a) (.num b) = .num (a - b) := by
  simp [jsSub, jsAdd, toNum, sub_eq_add_neg]

@[simp] theorem jsMul_num (a b : ℚ) : jsMul (.num a) (.num b) = .num (a * b) := rfl

@[simp] theorem jsMin_num (a b : ℚ) : jsMin (.num a) (.num b) = .num (min a b) := rfl

@[simp] theorem jsMax_num (a b : ℚ) : jsMax (.num a) (.num b) = .num (max a b) := rfl

@[simp] theorem jsAbs_num (a : ℚ) : jsAbs (.num a) = .num |a| := rfl

@[simp] theorem jsLtB_num (a b : ℚ) : jsLtB (.num a) (.num b) = decide (a < b) := rfl

@[simp] theorem jsLeB_num (a b : ℚ) : jsLeB (.num a) (.num b) = decide (a ≤ b) := rfl

@[simp] theorem jsGtB_num (a b : ℚ) : jsGtB (.num a) (.num b) = decide (b < a) := rfl

@[simp] theorem jsGeB_num (a b : ℚ) : jsGeB (.num a) (.num b) = decide (b ≤ a) := rfl

end JsVal

open JsVal

/-- Server-side player record, from UserState in state.ts (part_017).
Fields not used by any modelled operation (color, lastUpdate, playerKey,
scoreSubmitted, radius) are omitted.  The shield field is created only by
the shield powerup, so a fresh user carries the JS undefined value there. -/
structure User where
  id : String
  label : String
  x : JsVal
  y : JsVal
  rotation : JsVal
  health : JsVal
  shield : JsVal
  points : ℚ
  weaponType : String
  kills : Nat
  deaths : Nat
  vx : JsVal
  vy : JsVal
deriving DecidableEq

/-- Mine record from mines.ts (radius is the trigger radius). -/
structure Mine where
  id : String
  x : JsVal
  y : JsVal
  radius : JsVal
  damageRadius : JsVal
  damage : JsVal
deriving DecidableEq

/-- In-flight bullet from bullets.ts. -/
structure Bullet where
  id : String
  userId : String
  x : JsVal
  y : JsVal
  vx : JsVal
  vy : JsVal
  lifetime : Int
  isRocket : Bool
deriving DecidableEq

/-- Active laser beam from lasers.ts. -/
structure Laser where
  userId : String
  angle : JsVal
  duration : Int
deriving DecidableEq

/-- Outbound socket events relevant to the claims; payloads are projected
to the fields the claims mention. -/
inductive Ev where
  | healthUpdate (userId : String) (health : JsVal) (shield : Option JsVal)
  | cursorUpdate (userId : String) (x y rotation : JsVal)
  | knockback (userId : String) (vx vy : JsVal)
  | mineExplode (mineId : String) (x y : JsVal) (triggeredBy : Option String)
  | playerKilled (victimId victimName attackerId attackerName : String)
  | statsUpdate (userId : String) (kills deaths : Nat)
  | scoreUpdate
  | playerRespawn (userId : String) (respawnTime : Int)
deriving DecidableEq

/-- Users are stored in a Map keyed by id; we model the map as a list with
pairwise distinct ids, looked up with find?. -/
def findUser (users : List User) (uid : String) : Option User :=
  users.find? (fun u => u.id == uid)

/-- Point mutation of the user with the given id (map update). -/
def updateUser (users : List User) (uid : String) (f : User → User) : List User :=
  users.map (fun u => if u.id == uid then f u else u)

/-- Clamp stored by updateHealth in state.ts:
Math.max 0 (Math.min 100 health). -/
def clampHealth (h : JsVal) : JsVal := jsMax (.num 0) (jsMin (.num 100) h)

/-- updateHealth from state.ts: clamp and store, returning the stored
health, or none when the id is unknown. -/
def updateHealth (users : List User) (uid : String) (h : JsVal) :
    List User × Option JsVal :=
  match findUser users uid with
  | none => (users, none)
  | some _ =>
      (updateUser users uid (fun u => { u with health := clampHealth h }),
       some (clampHealth h))

/-- applyKnockback from state.ts: add a force to the stored velocity.
The packages server imports this helper but never calls it. -/
def applyKnockback (users : List User) (uid : String) (fx fy : JsVal) :
    List User :=
  updateUser users uid (fun u => { u with vx := jsAdd u.vx fx, vy := jsAdd u.vy fy })

/-- applyDamage from socket.ts lines 27 to 44: absorb with the shield when
it is strictly positive, then apply the remaining damage through
updateHealth.  Returns the updated user and the value the source returns
(the pre-clamp lowered health, or the untouched health). -/
def applyDamage (u : User) (damage : JsVal) : User × JsVal :=
  let p := if jsGtB u.shield (.num 0) then
      (let sd := jsMin u.shield damage
       ({ u with shield := jsSub u.shield sd }, jsSub damage sd))
    else (u, damage)
  if jsGtB p.2 (.num 0) then
    let newHealth := jsMax (.num 0) (jsSub p.1.health p.2)
    ({ p.1 with health := clampHealth newHealth }, newHealth)
  else (p.1, p.1.health)

/-- Stat mutators addKill / addDeath from state.ts. -/
def addKillF (u : User) : User := { u with kills := u.kills + 1 }

/-- addDeath counterpart. -/
def addDeathF (u : User) : User := { u with deaths := u.deaths + 1 }

/-- handleDeath from socket.ts lines 47 to 121 (the synchronous part):
stats and kill bookkeeping, kill / stats / score events, and the
player:respawn announcement with respawnTime = now + 6000.  The deferred
six-second reset is modelled separately by respawnAction. -/
def handleDeath (now : Int) (users : List User) (victimId : String)
    (attackerId : Option String) : List User × List Ev :=
  match findUser users victimId, attackerId.bind (findUser users) with
  | some user, some attacker =>
      let users1 := updateUser users victimId addDeathF
      let users2 :=
        if user.id == attacker.id then users1
        else
          updateUser
            (updateUser users1 attacker.id
              (fun a => { (addKillF a) with points := a.points + 100 }))
            victimId (fun v => { v with points := max 0 (v.points - 50) })
      (users2,
        [Ev.playerKilled user.id user.label attacker.id attacker.label,
         Ev.statsUpdate user.id user.kills (user.deaths + 1)]
        ++ (if user.id == attacker.id then []
            else [Ev.statsUpdate attacker.id (attacker.kills + 1) attacker.deaths])
        ++ [Ev.scoreUpdate, Ev.playerRespawn victimId (now + 6000)])
  | some user, none =>
      (updateUser users victimId addDeathF,
        [Ev.statsUpdate user.id user.kills (user.deaths + 1), Ev.scoreUpdate,
         Ev.playerRespawn victimId (now + 6000)])
  | none, _ => (users, [Ev.playerRespawn victimId (now + 6000)])

/-- The deferred respawn body scheduled by handleDeath (socket.ts lines
123 to 151): six seconds after death, reset health to 100, relocate to a
uniform random point of the map (r1, r2 are the two Math.random draws),
reset the weapon, and emit health and cursor updates. -/
def respawnAction (W H : ℚ) (users : List User) (uid : String) (r1 r2 : ℚ) :
    List User × List Ev :=
  match findUser users uid with
  | none => (users, [])
  | some u =>
      let nx : JsVal := .num ((r1 - 1/2) * W)
      let ny : JsVal := .num ((r2 - 1/2) * H)
      (updateUser users uid (fun v =>
          { v with health := .num 100, x := nx, y := ny, weaponType := "machineGun" }),
       [Ev.healthUpdate uid (.num 100) (some (jsOrZero u.shield)),
        Ev.cursorUpdate uid nx ny (.num 0)])

/-- The health:damage socket handler (socket.ts lines 437 to 451).  The
sender socket is received but never read by the body, which is the
sender-independence the implicit claim talks about. -/
def healthDamageHandler (now : Int) (_senderId : String) (users : List User)
    (uid : String) (h : JsVal) (attackerId : Option String) :
    List User × List Ev :=
  match updateHealth users uid h with
  | (users1, some nh) =>
      if jsLeB nh (.num 0) then
        let d := handleDeath now users1 uid attackerId
        (d.1, Ev.healthUpdate uid nh none :: d.2)
      else (users1, [Ev.healthUpdate uid nh none])
  | (users1, none) => (users1, [])

/-- The cursor:move socket handler (socket.ts lines 367 to 396): a typeof
check on x and y, a dead-ship drop, clamping of x and y to the map half
extents, store, and a broadcast to the other sockets carrying the raw
coordinates. -/
def cursorMoveHandler (W H : ℚ) (users : List User) (senderId : String)
    (x y rot : JsVal) : List User × List Ev :=
  if !(isNumType x) || !(isNumType y) then (users, [])
  else
    match findUser users senderId with
    | none => (users, [])
    | some me =>
        if jsLeB me.health (.num 0) then (users, [])
        else
          let cx := jsMax (.num (-(W/2))) (jsMin x (.num (W/2)))
          let cy := jsMax (.num (-(H/2))) (jsMin y (.num (H/2)))
          (updateUser users senderId (fun u => { u with x := cx, y := cy, rotation := rot }),
           [Ev.cursorUpdate senderId x y (jsOrZero rot)])

/-- The hit test of the per-bullet user loop: alive, not the owner, and
squared distance at most USER_RADIUS squared (625). -/
def bulletHitPred (b : Bullet) (u : User) : Bool :=
  !(jsLeB u.health (.num 0)) && !(b.userId == u.id) &&
  jsLeB (jsAdd (jsMul (jsSub b.x u.x) (jsSub b.x u.x))
               (jsMul (jsSub b.y u.y) (jsSub b.y u.y))) (.num 625)

/-- The per-bullet player-collision pass of the tick loop (socket.ts lines
239 to 256): the first live non-owner ship within 25 units takes
applyDamage 10, a health:update is emitted, the bullet is consumed, and a
death routes through handleDeath crediting the bullet owner. -/
def bulletTickUsers (now : Int) (b : Bullet) (users : List User) :
    List User × List Ev × Bool :=
  match users.find? (bulletHitPred b) with
  | none => (users, [], false)
  | some u =>
      let p := applyDamage u (.num 10)
      let users1 := updateUser users u.id (fun _ => p.1)
      let ev1 := Ev.healthUpdate u.id p.2 (some p.1.shield)
      if p.2 = .num 0 then
        let d := handleDeath now users1 u.id (some b.userId)
        (d.1, ev1 :: d.2, true)
      else (users1, [ev1], true)

/-- The range test of the explodeMine damage pass:
Math.sqrt of the squared distance below damageRadius. -/
def inRangeB (m : Mine) (u : User) : Bool :=
  jsSqrtLtB (jsAdd (jsMul (jsSub u.x m.x) (jsSub u.x m.x))
                   (jsMul (jsSub u.y m.y) (jsSub u.y m.y))) m.damageRadius

/-- The damage pass of MineSystem.explodeMine (mines.ts lines 172 to 196):
for every user (dead ones included) whose distance to the mine is below
damageRadius, lower the health by mine.damage through updateHealth, emit a
health:update, and on an alive-to-dead transition invoke the death
callback (handleDeath) with the propagated trigger attribution.  The user
map is iterated over the id snapshot in insertion order; the third result
component logs the onDeath invocations. -/
def minePass (now : Int) (m : Mine) (trig : Option String) :
    List String → List User → List User × List Ev × List String
  | [], users => (users, [], [])
  | uid :: rest, users =>
      match findUser users uid with
      | none => minePass now m trig rest users
      | some u =>
          if inRangeB m u then
            let oldH := u.health
            let nh := jsMax (.num 0) (jsSub u.health m.damage)
            let users1 := (updateHealth users uid nh).1
            if jsGtB oldH (.num 0) && jsLeB nh (.num 0) then
              let d := handleDeath now users1 uid trig
              let r := minePass now m trig rest d.1
              (r.1, Ev.healthUpdate uid nh none :: (d.2 ++ r.2.1), uid :: r.2.2)
            else
              let r := minePass now m trig rest users1
              (r.1, Ev.healthUpdate uid nh none :: r.2.1, r.2.2)
          else minePass now m trig rest users

/-- The synchronous part of MineSystem.explodeMine (mines.ts lines 157 to
200): remove the mine first, emit mine:explode, then run the damage pass.
The deferred 100 ms chain check is modelled by explodeMineChain below. -/
def explodeMine (now : Int) (mines : List Mine) (users : List User)
    (mineId : String) (trig : Option String) :
    List Mine × List User × List Ev × List String :=
  match mines.find? (fun m => m.id == mineId) with
  | none => (mines, users, [], [])
  | some m =>
      let mines1 := mines.eraseP (fun mm => mm.id == mineId)
      let r := minePass now m trig (users.map (fun u => u.id)) users
      (mines1, r.1, Ev.mineExplode m.id m.x m.y trig :: r.2.1, r.2.2)

/-- The chain condition of checkChainReactions (mines.ts lines 205 to
220): the neighbour explodes when the distance between the centres is
below the exploding mine damageRadius plus the neighbour trigger
radius. -/
def inBlast (e m : Mine) : Bool :=
  jsSqrtLtB (jsAdd (jsMul (jsSub m.x e.x) (jsSub m.x e.x))
                   (jsMul (jsSub m.y e.y) (jsSub m.y e.y)))
            (jsAdd e.damageRadius m.radius)

/-- Partition length identity used for chain termination. -/
theorem length_filter_partition {α : Type} (p : α → Bool) (l : List α) :
    (l.filter p).length + (l.filter (fun a => !(p a))).length = l.length := by
  induction l with
  | nil => simp
  | cons a t ih =>
      by_cases h : p a = true <;> simp [List.filter_cons, h] <;> omega

/-- The mine cascade started by the deferred chain checks: each pending
exploded mine removes, in one sweep, every remaining mine within its blast
condition, and every mine so exploded schedules its own chain check.  The
pending checks run strictly after the sweep that created them (the 100 ms
setTimeout), so the queue is processed first-in first-out; the resulting
exploded SET is what claim seven is about and is independent of the sweep
order used inside mines.ts.  Returns the surviving mines and the exploded
mines. -/
def chainReactions (rem queue : List Mine) : List Mine × List Mine :=
  match queue with
  | [] => (rem, [])
  | e :: qs =>
      let hits := rem.filter (fun m => inBlast e m)
      let rem2 := rem.filter (fun m => !(inBlast e m))
      let next := chainReactions rem2 (qs ++ hits)
      (next.1, hits ++ next.2)
termination_by 2 * rem.length + queue.length
decreasing_by
  simp only [List.length_append, List.length_cons]
  have h := length_filter_partition (fun m => inBlast e m) rem
  omega

/-- Full explosion cascade of a single trigger: explodeMine removes the
triggered mine before any effect, then the chain worklist runs; every
explosion in the cascade emits mine:explode with the same propagated
attribution. -/
def explodeMineChain (mines : List Mine) (mineId : String)
    (trig : Option String) : List Mine × List Mine × List Ev :=
  match mines.find? (fun m => m.id == mineId) with
  | none => (mines, [], [])
  | some m0 =>
      let rem0 := mines.eraseP (fun m => m.id == mineId)
      let r := chainReactions rem0 [m0]
      let exploded := m0 :: r.2
      (r.1, exploded, exploded.map (fun m => Ev.mineExplode m.id m.x m.y trig))

/-- checkLaserHit from lasers.ts lines 51 to 71, with the beam direction
supplied as the cosine and sine of the beam angle (the only transcendental
step of the source; everything after it is exact rational arithmetic). -/
def checkLaserHit (px py cosv sinv : JsVal) (len : ℚ) (tx ty tr : JsVal) : Bool :=
  let ex := jsAdd px (jsMul cosv (.num len))
  let ey := jsAdd py (jsMul sinv (.num len))
  let dx := jsSub ex px
  let dy := jsSub ey py
  let lsq := jsAdd (jsMul dx dx) (jsMul dy dy)
  if lsq = .num 0 then false
  else
    let t := jsMax (.num 0) (jsMin (.num 1)
      (jsDiv (jsAdd (jsMul (jsSub tx px) dx) (jsMul (jsSub ty py) dy)) lsq))
    let cx := jsAdd px (jsMul t dx)
    let cy := jsAdd py (jsMul t dy)
    jsLeB (jsAdd (jsMul (jsSub tx cx) (jsSub tx cx))
                 (jsMul (jsSub ty cy) (jsSub ty cy)))
          (jsMul tr tr)

/-- The player damage sweep of LaserSystem.update (lasers.ts lines 102 to
111): every alive non-owner ship within 25 units of the 2000 unit segment
from the owner position takes 2 damage through updateHealth and gets a
health:update; no death handling is invoked on this path. -/
def laserPass (px py cosv sinv : JsVal) (ownerId : String) :
    List String → List User → List User × List Ev
  | [], users => (users, [])
  | uid :: rest, users =>
      match findUser users uid with
      | none => laserPass px py cosv sinv ownerId rest users
      | some t =>
          if uid == ownerId then laserPass px py cosv sinv ownerId rest users
          else if jsLeB t.health (.num 0) then
            laserPass px py cosv sinv ownerId rest users
          else if checkLaserHit px py cosv sinv 2000 t.x t.y (.num 25) then
            let nh := jsMax (.num 0) (jsSub t.health (.num 2))
            let users1 := (updateHealth users uid nh).1
            let r := laserPass px py cosv sinv ownerId rest users1
            (r.1, Ev.healthUpdate uid nh none :: r.2)
          else laserPass px py cosv sinv ownerId rest users

/-- One beam of LaserSystem.update (lasers.ts lines 82 to 111 and 144 to
148), restricted to the player leg (the mine and bot legs touch no player
state): a beam whose owner is missing from the user map is dropped;
otherwise the beam angle is refreshed from the owner rotation, the damage
sweep runs from the owner current position (cosv and sinv stand for the
cosine and sine of that rotation), and the beam survives while its
remaining duration stays positive. -/
def laserTickPlayers (cosv sinv : JsVal) (users : List User) (l : Laser) :
    Option Laser × List User × List Ev :=
  match findUser users l.userId with
  | none => (none, users, [])
  | some owner =>
      let r := laserPass owner.x owner.y cosv sinv l.userId
                 (users.map (fun u => u.id)) users
      let d2 := l.duration - 1
      (if d2 ≤ 0 then none else some ⟨l.userId, owner.rotation, d2⟩, r.1, r.2)

/-- Leaderboard score from getLeaderboard in state.ts:
kills * 100 - deaths * 50. -/
def scoreOf (u : User) : ℤ := (u.kills : ℤ) * 100 - (u.deaths : ℤ) * 50

/-- Stable descending insertion used to model the ES2019 stable
Array.prototype.sort with comparator (b.score - a.score): a later element
is placed after every already placed element with a score at least as
large. -/
def insertDesc (x : User) : List User → List User
  | [] => [x]
  | y :: ys => if scoreOf y < scoreOf x then x :: y :: ys else y :: insertDesc x ys

/-- getLeaderboard from state.ts: users sorted by score descending,
insertion order preserved among ties. -/
def getLeaderboard (users : List User) : List User :=
  users.foldl (fun acc u => insertDesc u acc) []

/-- getUserRank from state.ts: one-based index in the leaderboard, zero
when absent. -/
def getUserRank (users : List User) (uid : String) : Nat :=
  match (getLeaderboard users).findIdx? (fun u => u.id == uid) with
  | some i => i + 1
  | none => 0

/-- calculatePlacementScore from hub-api.ts (part_008). -/
def calculatePlacementScore (rank totalPlayers : ℤ) : ℤ :=
  if rank ≤ 0 ∨ totalPlayers = 0 then 0
  else if rank ≤ 5 then ([100, 80, 60, 40, 20].getD ((rank - 1).toNat) 0)
  else 20

/-- The clamp-and-floor applied by submitScoreToHub in hub-api.ts; scores
are integers here so Math.floor is the identity. -/
def submitScoreClamp (s : ℤ) : ℤ := max 0 (min 100 s)

/-- Placement table as written in the specification (section 4.11): rank
one to four map to 100, 80, 60, 40; rank five and beyond to 20; rank zero
(ship absent) to 0.  This definition follows the spec wording and is
compared against the source function in the claim nine theorem. -/
def specPlacementTable (rank : Nat) : ℤ :=
  if rank = 0 then 0
  else if rank = 1 then 100
  else if rank = 2 then 80
  else if rank = 3 then 60
  else if rank = 4 then 40
  else 20

/-
Reachability model for the per-ship invariants of claim three.  The state
of a single ship is projected out of the world; each transition below is
the exact per-ship effect of one mutation path of the server.  Positions
of the other entities (bullets, mines, beams) are abstracted away: a
damage step may fire whenever the corresponding entity could be in range,
which only enlarges the set of reachable states and is therefore sound for
refuting or confirming a universally quantified invariant whose
counterexample uses none of those steps.
-/

/-- addUser from state.ts: fresh ship at the origin with health 100, no
velocity, machine gun, and no shield field yet (JS undefined). -/
def initUser (uid lbl : String) : User :=
  { id := uid, label := lbl, x := .num 0, y := .num 0, rotation := .num 0,
    health := .num 100, shield := .undef, points := 0,
    weaponType := "machineGun", kills := 0, deaths := 0,
    vx := .num 0, vy := .num 0 }

/-- Per-ship effect of the cursor:move store (socket.ts lines 374 to
380). -/
def cursorEffect (W H : ℚ) (x y rot : JsVal) (u : User) : User :=
  { u with x := jsMax (.num (-(W/2))) (jsMin x (.num (W/2))),
           y := jsMax (.num (-(H/2))) (jsMin y (.num (H/2))),
           rotation := rot }

/-- Per-ship effect of a health:damage frame: updateHealth with the raw
client value. -/
def healthFrameEffect (h : JsVal) (u : User) : User :=
  { u with health := clampHealth h }

/-- Per-ship effect of a bullet hit: applyDamage with the flat 10. -/
def bulletHitEffect (u : User) : User := (applyDamage u (.num 10)).1

/-- Per-ship effect of a mine explosion in range: 40 damage through
updateHealth (mines.ts damage pass). -/
def mineBlastEffect (u : User) : User :=
  { u with health := clampHealth (jsMax (.num 0) (jsSub u.health (.num 40))) }

/-- Per-ship effect of one laser tick in range: 2 damage through
updateHealth. -/
def laserTickEffect (u : User) : User :=
  { u with health := clampHealth (jsMax (.num 0) (jsSub u.health (.num 2))) }

/-- Per-ship effect of a health pack (socket.ts lines 205 to 210). -/
def healPackEffect (u : User) : User :=
  { u with health := clampHealth (jsMin (.num 100) (jsAdd u.health (.num 50))) }

/-- Per-ship effect of a shield pickup (socket.ts line 213). -/
def shieldPickupEffect (u : User) : User := { u with shield := .num 30 }

/-- Per-ship effect of the deferred respawn body, r1 and r2 being the two
Math.random draws. -/
def respawnEffect (W H r1 r2 : ℚ) (u : User) : User :=
  { u with health := .num 100, x := .num ((r1 - 1/2) * W),
           y := .num ((r2 - 1/2) * H), weaponType := "machineGun" }

/-- Friction then small-velocity snap from updatePhysics in state.ts. -/
def frictionSnap (v : JsVal) : JsVal :=
  let v1 := jsMul v (.num (23/25))
  if jsLtB (jsAbs v1) (.num (1/100)) then .num 0 else v1

/-- The speed-cap test of updatePhysics:
Math.sqrt (vx * vx + vy * vy) > 15. -/
def speedCond (vx vy : JsVal) : Bool :=
  jsSqrtGtB (jsAdd (jsMul vx vx) (jsMul vy vy)) (.num 15)

/-- Relational embedding of the speed cap of updatePhysics.  When the cap
fires on finite components, the source multiplies both components by
15 / Math.sqrt (vx * vx + vy * vy); that scaled pair is characterised
exactly, without a square root, as the positive rescaling of the pair
whose squared norm is 225.  When the cap fires on an infinite component
the source computes 15 / Infinity = 0 and multiplies by it. -/
def CapRel (vx vy vx2 vy2 : JsVal) : Prop :=
  if speedCond vx vy then
    match vx, vy with
    | .num a, .num b =>
        ∃ c : ℚ, 0 < c ∧ vx2 = .num (a * c) ∧ vy2 = .num (b * c) ∧
          (a * c) ^ 2 + (b * c) ^ 2 = 225
    | _, _ => vx2 = jsMul vx (.num 0) ∧ vy2 = jsMul vy (.num 0)
  else vx2 = vx ∧ vy2 = vy

/-- The rest of one updatePhysics iteration after the speed cap: position
integration happened before friction in the source, so it uses the old
velocity; then clamping to the half extents and the wall bounce that
multiplies the (already capped) velocity by -0.5. -/
def physicsFinish (W H : ℚ) (u : User) (vx2 vy2 : JsVal) : User :=
  let x1 := jsAdd u.x u.vx
  let y1 := jsAdd u.y u.vy
  let x2 := jsMax (.num (-(W/2))) (jsMin x1 (.num (W/2)))
  let y2 := jsMax (.num (-(H/2))) (jsMin y1 (.num (H/2)))
  let vx3 := if jsLeB x2 (.num (-(W/2))) || jsGeB x2 (.num (W/2))
             then jsMul vx2 (.num (-(1/2))) else vx2
  let vy3 := if jsLeB y2 (.num (-(H/2))) || jsGeB y2 (.num (H/2))
             then jsMul vy2 (.num (-(1/2))) else vy2
  { u with x := x2, y := y2, vx := vx3, vy := vy3 }

/-- Labels of the per-ship transitions. -/
inductive Inp where
  | cursorMove (x y rot : JsVal)
  | healthFrame (h : JsVal)
  | bulletHit
  | mineBlast
  | laserTick
  | healPack
  | shieldPickup
  | respawn (r1 r2 : ℚ)
  | physicsTick (vx2 vy2 : JsVal)

/-- One per-ship transition of the server, with the guards of the
corresponding handler: cursor:move requires the typeof check and an alive
ship, the bullet / laser / pickup paths skip dead ships, the mine damage
pass does not, and the physics tick constrains the capped velocity pair
through CapRel. -/
def stepRel (W H : ℚ) : Inp → User → User → Prop
  | .cursorMove x y rot, u, u2 =>
      isNumType x = true ∧ isNumType y = true ∧
      jsLeB u.health (.num 0) = false ∧ u2 = cursorEffect W H x y rot u
  | .healthFrame h, u, u2 => u2 = healthFrameEffect h u
  | .bulletHit, u, u2 =>
      jsLeB u.health (.num 0) = false ∧ u2 = bulletHitEffect u
  | .mineBlast, u, u2 => u2 = mineBlastEffect u
  | .laserTick, u, u2 =>
      jsLeB u.health (.num 0) = false ∧ u2 = laserTickEffect u
  | .healPack, u, u2 =>
      jsLeB u.health (.num 0) = false ∧ u2 = healPackEffect u
  | .shieldPickup, u, u2 =>
      jsLeB u.health (.num 0) = false ∧ u2 = shieldPickupEffect u
  | .respawn r1 r2, u, u2 =>
      0 ≤ r1 ∧ r1 < 1 ∧ 0 ≤ r2 ∧ r2 < 1 ∧ u2 = respawnEffect W H r1 r2 u
  | .physicsTick vx2 vy2, u, u2 =>
      CapRel (frictionSnap u.vx) (frictionSnap u.vy) vx2 vy2 ∧
      u2 = physicsFinish W H u vx2 vy2

/-- Ship states reachable from a fresh connection through transitions
whose labels satisfy the filter P. -/
inductive ReachP (W H : ℚ) (P : Inp → Prop) : User → Prop
  | init (uid lbl : String) : ReachP W H P (initUser uid lbl)
  | step {u u2 : User} (i : Inp) :
      ReachP W H P u → P i → stepRel W H i u u2 → ReachP W H P u2

/-- The invariant of claim three, read on JS values: a NaN coordinate or
NaN health falsifies it, exactly as the mathematical reading does. -/
def shipInv (W H : ℚ) (u : User) : Bool :=
  jsLeB (.num 0) u.health && jsLeB u.health (.num 100) &&
  jsLeB (jsAbs u.x) (.num (W/2)) && jsLeB (jsAbs u.y) (.num (H/2))

/-- Input filter for the amended claim three: no NaN coordinate in an
accepted cursor frame and no NaN or undefined health in a health:damage
frame.  Every other input, infinities included, is unrestricted. -/
def goodInp : Inp → Prop
  | .cursorMove x y _ => x ≠ .nan ∧ y ≠ .nan
  | .healthFrame h => h ≠ .nan ∧ h ≠ .undef
  | _ => True

/- Foundational lemmas about the user-map model. -/

/-- Lookup after a point update, for an id-preserving mutation. -/
theorem find?_map_of_pred_inv {α : Type} (g : α → α) (p : α → Bool)
    (l : List α) (hg : ∀ x, p (g x) = p x) :
    (l.map g).find? p = (l.find? p).map g := by
  induction l with
  | nil => rfl
  | cons a t ih =>
      by_cases h : p a = true
      · rw [List.map_cons, List.find?_cons_of_pos _ (by rw [hg]; exact h),
          List.find?_cons_of_pos _ h]
        rfl
      · rw [List.map_cons, List.find?_cons_of_neg _ (by rw [hg]; exact h),
          List.find?_cons_of_neg _ h, ih]

theorem findUser_updateUser (users : List User) (tid uid : String)
    (f : User → User) (hid : ∀ u, (f u).id = u.id) :
    findUser (updateUser users tid f) uid =
      (findUser users uid).map (fun u => if u.id == tid then f u else u) := by
  refine find?_map_of_pred_inv (fun u => if u.id == tid then f u else u)
    (fun u => u.id == uid) users ?_
  intro x
  by_cases h : (x.id == tid) = true <;> simp [h, hid x]

/-- A point update at a different id leaves a lookup unchanged. -/
theorem findUser_updateUser_ne (users : List User) (tid uid : String)
    (f : User → User) (hid : ∀ u, (f u).id = u.id) (hne : uid ≠ tid) :
    findUser (updateUser users tid f) uid = findUser users uid := by
  rw [findUser_updateUser users tid uid f hid]
  cases h : findUser users uid with
  | none => rfl
  | some u =>
      have h2 : List.find? (fun w => w.id == uid) users = some u := h
      have hu := List.find?_some h2
      have hid2 : u.id = uid := by simpa using hu
      have hnt : ¬ u.id = tid := by
        subst hid2
        simpa using hne
      simp [hnt]

/-- Projection of the whole list is untouched by a point update whose
mutation preserves the projection. -/
theorem updateUser_map_proj {α : Type} (users : List User) (tid : String)
    (f : User → User) (proj : User → α)
    (hproj : ∀ u ∈ users, (u.id == tid) = true → proj (f u) = proj u) :
    (updateUser users tid f).map proj = users.map proj := by
  induction users with
  | nil => rfl
  | cons a t ih =>
      have ih2 := ih (fun u hu h => hproj u (List.mem_cons_of_mem a hu) h)
      simp only [updateUser, List.map_cons] at ih2 ⊢
      by_cases ha : (a.id == tid) = true
      · rw [if_pos ha, hproj a (List.mem_cons_self a t) ha, ih2]
      · rw [if_neg ha, ih2]

/-- Per-lookup projection preservation for a mutation that keeps both the
id and the projection, on every value. -/
theorem findUser_map_proj_updateUser {α : Type} (users : List User)
    (tid uid : String) (f : User → User) (proj : User → α)
    (hid : ∀ u, (f u).id = u.id) (hproj : ∀ u, proj (f u) = proj u) :
    (findUser (updateUser users tid f) uid).map proj =
      (findUser users uid).map proj := by
  rw [findUser_updateUser users tid uid f hid]
  cases findUser users uid with
  | none => rfl
  | some u =>
      by_cases h : u.id = tid <;> simp [h, hproj u]

/-- The observation fields the mine and laser sweeps read: health and
position. -/
def projHXY (u : User) : JsVal × JsVal × JsVal := (u.health, u.x, u.y)

/-- Velocity view used to state that knockback never happens. -/
def projVel (u : User) : String × JsVal × JsVal := (u.id, u.vx, u.vy)

/-- Shield view used for the bypass statements. -/
def projShield (u : User) : String × JsVal := (u.id, u.shield)

/-- handleDeath never touches health or position of any user. -/
theorem handleDeath_findUser_projHXY (now : Int) (users : List User)
    (v : String) (a : Option String) (uid : String) :
    (findUser (handleDeath now users v a).1 uid).map projHXY =
      (findUser users uid).map projHXY := by
  unfold handleDeath
  cases hv : findUser users v with
  | none => rfl
  | some user =>
      cases ha : a.bind (findUser users) with
      | none =>
          simp only []
          rw [findUser_map_proj_updateUser] <;> intro u <;> rfl
      | some attacker =>
          simp only []
          by_cases he : user.id == attacker.id
          · simp only [he, if_pos]
            rw [findUser_map_proj_updateUser] <;> intro u <;> rfl
          · simp only [he, if_neg, Bool.not_eq_true]
            rw [findUser_map_proj_updateUser, findUser_map_proj_updateUser,
                findUser_map_proj_updateUser] <;> intro u <;> rfl

/-- handleDeath never touches velocities. -/
theorem handleDeath_map_projVel (now : Int) (users : List User)
    (v : String) (a : Option String) :
    ((handleDeath now users v a).1).map projVel = users.map projVel := by
  unfold handleDeath
  cases hv : findUser users v with
  | none => rfl
  | some user =>
      cases ha : a.bind (findUser users) with
      | none =>
          simp only []
          rw [updateUser_map_proj] ; intro u _ _ ; rfl
      | some attacker =>
          simp only []
          by_cases he : user.id == attacker.id
          · simp only [he, if_pos]
            rw [updateUser_map_proj] ; intro u _ _ ; rfl
          · simp only [he, if_neg, Bool.not_eq_true]
            rw [updateUser_map_proj, updateUser_map_proj, updateUser_map_proj] <;>
              (intro u _ _ ; rfl)

/-- handleDeath never touches shields. -/
theorem handleDeath_map_projShield (now : Int) (users : List User)
    (v : String) (a : Option String) :
    ((handleDeath now users v a).1).map projShield = users.map projShield := by
  unfold handleDeath
  cases hv : findUser users v with
  | none => rfl
  | some user =>
      cases ha : a.bind (findUser users) with
      | none =>
          simp only []
          rw [updateUser_map_proj] ; intro u _ _ ; rfl
      | some attacker =>
          simp only []
          by_cases he : user.id == attacker.id
          · simp only [he, if_pos]
            rw [updateUser_map_proj] ; intro u _ _ ; rfl
          · simp only [he, if_neg, Bool.not_eq_true]
            rw [updateUser_map_proj, updateUser_map_proj, updateUser_map_proj] <;>
              (intro u _ _ ; rfl)

/-- Knockback event recogniser. -/
def isKnockbackEv : Ev → Bool
  | .knockback _ _ _ => true
  | _ => false

/-- Respawn event recogniser. -/
def isRespawnEv : Ev → Bool
  | .playerRespawn _ _ => true
  | _ => false

/-- handleDeath emits no knockback event. -/
theorem handleDeath_no_knockback (now : Int) (users : List User)
    (v : String) (a : Option String) :
    ((handleDeath now users v a).2).countP isKnockbackEv = 0 := by
  unfold handleDeath
  cases hv : findUser users v with
  | none => simp [isKnockbackEv]
  | some user =>
      cases ha : a.bind (findUser users) with
      | none => simp [isKnockbackEv]
      | some attacker =>
          by_cases he : user.id == attacker.id <;>
            simp [he, isKnockbackEv, List.countP_append, List.countP_cons]

/-- handleDeath emits exactly one respawn event, timed at now + 6000. -/
theorem handleDeath_one_respawn (now : Int) (users : List User)
    (v : String) (a : Option String) :
    ((handleDeath now users v a).2).countP isRespawnEv = 1 ∧
      Ev.playerRespawn v (now + 6000) ∈ (handleDeath now users v a).2 := by
  unfold handleDeath
  cases hv : findUser users v with
  | none => simp [isRespawnEv]
  | some user =>
      cases ha : a.bind (findUser users) with
      | none => simp [isRespawnEv]
      | some attacker =>
          by_cases he : user.id == attacker.id <;>
            simp [he, isRespawnEv, List.countP_append, List.countP_cons]

/-- Lookup at the updated id, for a mutation that preserves the id of the
values it is actually applied to. -/
theorem findUser_updateUser_self (users : List User) (tid : String)
    (f : User → User) (hfid : ∀ u, (u.id == tid) = true → (f u).id = u.id) :
    findUser (updateUser users tid f) tid = (findUser users tid).map f := by
  induction users with
  | nil => rfl
  | cons a t ih =>
      by_cases ha : (a.id == tid) = true
      · have hfa : (f a).id = a.id := hfid a ha
        show List.find? _ (_ :: _) = _
        rw [List.find?_cons_of_pos _ (by simpa [ha, hfa]),
          show findUser (a :: t) tid = some a from
            List.find?_cons_of_pos _ (by simpa [ha])]
        simp [ha]
      · show List.find? _ (_ :: _) = _
        rw [List.find?_cons_of_neg _ (by simpa [ha]),
          show findUser (a :: t) tid = List.find? (fun u => u.id == tid) t from
            List.find?_cons_of_neg _ (by simpa [ha])]
        simpa [ha, updateUser, findUser] using ih

/-- In a user list with pairwise distinct ids, two members with the same
id coincide. -/
theorem eq_of_mem_nodup_ids {users : List User}
    (hN : (users.map User.id).Nodup) {a b2 : User}
    (ha : a ∈ users) (hb : b2 ∈ users) (hab : a.id = b2.id) : a = b2 := by
  induction users with
  | nil => cases ha
  | cons u t ih =>
      rw [List.map_cons, List.nodup_cons] at hN
      rcases List.mem_cons.mp ha with ha1 | ha1 <;>
        rcases List.mem_cons.mp hb with hb1 | hb1
      · rw [ha1, hb1]
      · exfalso
        apply hN.1
        have : u.id = b2.id := by rw [← ha1]; exact hab
        rw [this]
        exact List.mem_map_of_mem User.id hb1
      · exfalso
        apply hN.1
        have : u.id = a.id := by rw [← hb1]; exact hab.symm
        rw [this]
        exact List.mem_map_of_mem User.id ha1
      · exact ih hN.2 ha1 hb1

/- Concrete fixtures for the counterexamples. -/

/-- Ship at a given position with a given health, otherwise fresh. -/
def shipAt (uid : String) (px py h : ℚ) : User :=
  { initUser uid uid with x := .num px, y := .num py, health := .num h }

/-- Mine with the spawn constants of mines.ts: trigger radius 20, damage
radius 240, damage 40. -/
def mineAt (mid : String) (px py : ℚ) : Mine :=
  { id := mid, x := .num px, y := .num py, radius := .num 20,
    damageRadius := .num 240, damage := .num 40 }

/-- Chain fixture: three mines 200 units apart in a row (each neighbour
within the 260 unit chain condition) plus a distant fourth mine. -/
def c7mines : List Mine :=
  [mineAt "m1" 200 0, mineAt "m2" 400 0, mineAt "m3" 600 0,
   mineAt "m4" 1500 0]

/-- C1 counterexample: a rocket fired by atk touching ship B point blank,
with ship C standing 100 units away (inside the 150 unit explosion radius
the claim requires).  The server gives B the flat 10 damage (health 100
to 90, not the claimed falloff of up to 100), leaves C untouched, emits no
knockback event, and changes no velocity. -/
theorem C1_counterexample :
    (findUser (bulletTickUsers 0
        ⟨"b1", "atk", .num 0, .num 0, .num 0, .num 0, 180, true⟩
        [shipAt "B" 0 0 100, shipAt "C" 100 0 100]).1 "B").map User.health
      = some (.num 90) ∧
    (findUser (bulletTickUsers 0
        ⟨"b1", "atk", .num 0, .num 0, .num 0, .num 0, 180, true⟩
        [shipAt "B" 0 0 100, shipAt "C" 100 0 100]).1 "C")
      = some (shipAt "C" 100 0 100) ∧
    (bulletTickUsers 0 ⟨"b1", "atk", .num 0, .num 0, .num 0, .num 0, 180, true⟩
        [shipAt "B" 0 0 100, shipAt "C" 100 0 100]).2.1.countP isKnockbackEv = 0 ∧
    (bulletTickUsers 0 ⟨"b1", "atk", .num 0, .num 0, .num 0, .num 0, 180, true⟩
        [shipAt "B" 0 0 100, shipAt "C" 100 0 100]).1.map projVel
      = [shipAt "B" 0 0 100, shipAt "C" 100 0 100].map projVel := by
  decide

/-- C2 counterexample: a mine exploding 100 units from ship T.  The claim
requires a radial knockback of magnitude 20 times (1 - 100/240) and a
knockback broadcast; the server changes no velocity and emits no knockback
event (it does apply the 40 damage). -/
theorem C2_counterexample :
    (explodeMine 0 [mineAt "m" 0 0] [shipAt "T" 100 0 100] "m"
        (some "atk")).2.2.1.countP isKnockbackEv = 0 ∧
    (findUser (explodeMine 0 [mineAt "m" 0 0] [shipAt "T" 100 0 100] "m"
        (some "atk")).2.1 "T").map User.health = some (.num 60) ∧
    (explodeMine 0 [mineAt "m" 0 0] [shipAt "T" 100 0 100] "m"
        (some "atk")).2.1.map projVel = [shipAt "T" 100 0 100].map projVel := by
  decide

/-- C4 counterexample: a laser tick kills ship T (health 2 to 0), a death
transition, yet the server emits no player:respawn, records no death, and
invokes no death handling at all on this path. -/
theorem C4_counterexample :
    (laserTickPlayers (.num 1) (.num 0)
        [shipAt "O" 0 0 100, shipAt "T" 50 0 2] ⟨"O", .num 0, 120⟩).2.2
      = [Ev.healthUpdate "T" (.num 0) none] ∧
    (laserTickPlayers (.num 1) (.num 0)
        [shipAt "O" 0 0 100, shipAt "T" 50 0 2] ⟨"O", .num 0, 120⟩).2.2.countP
        isRespawnEv = 0 ∧
    (findUser (laserTickPlayers (.num 1) (.num 0)
        [shipAt "O" 0 0 100, shipAt "T" 50 0 2] ⟨"O", .num 0, 120⟩).2.1
        "T").map User.health = some (.num 0) ∧
    (findUser (laserTickPlayers (.num 1) (.num 0)
        [shipAt "O" 0 0 100, shipAt "T" 50 0 2] ⟨"O", .num 0, 120⟩).2.1
        "T").map User.deaths = some 0 := by
  decide

/-- C5 counterexample: ship S has shield 30 and health 80; a mine
explosion takes its health straight to 40 while the shield stays 30, so
mine damage is not absorbed by the shield. -/
theorem C5_counterexample :
    (findUser (explodeMine 0 [mineAt "m5" 0 0]
        [{ shipAt "S" 50 0 80 with shield := .num 30 }] "m5" none).2.1
        "S").map User.health = some (.num 40) ∧
    (findUser (explodeMine 0 [mineAt "m5" 0 0]
        [{ shipAt "S" 50 0 80 with shield := .num 30 }] "m5" none).2.1
        "S").map User.shield = some (.num 30) := by
  decide

/-- C6 counterexample: the beam owner O is dead (health 0), yet the beam
survives the tick (duration 120 to 119, angle refreshed from the owner
rotation) and still damages ship T (health 50 to 48). -/
theorem C6_counterexample :
    (laserTickPlayers (.num 1) (.num 0)
        [{ shipAt "O" 0 0 0 with rotation := .num (1/4) }, shipAt "T" 50 0 50]
        ⟨"O", .num 0, 120⟩).1 = some ⟨"O", .num (1/4), 119⟩ ∧
    (findUser (laserTickPlayers (.num 1) (.num 0)
        [{ shipAt "O" 0 0 0 with rotation := .num (1/4) }, shipAt "T" 50 0 50]
        ⟨"O", .num 0, 120⟩).2.1 "T").map User.health = some (.num 48) := by
  decide

/-- C8 counterexample: a cursor:move frame with x = NaN from an alive ship
is accepted: the stored x becomes NaN (a state change) and a cursor:update
broadcast is emitted, contradicting the claimed rejection of non-finite
frames. -/
theorem C8_counterexample :
    (findUser (cursorMoveHandler 3000 3000 [initUser "s" "S"] "s" .nan
        (.num 0) (.num 0)).1 "s").map User.x = some .nan ∧
    (cursorMoveHandler 3000 3000 [initUser "s" "S"] "s" .nan (.num 0)
        (.num 0)).1 ≠ [initUser "s" "S"] ∧
    (cursorMoveHandler 3000 3000 [initUser "s" "S"] "s" .nan (.num 0)
        (.num 0)).2 ≠ [] := by
  decide

/-- C3 counterexample: after a single accepted cursor:move frame carrying
x = NaN (it passes the typeof check of the handler), the stored x is NaN
and the position invariant |x| at most MAP Width / 2 is false, so the
claimed invariant does not hold of every reachable state. -/
theorem C3_counterexample :
    ReachP 3000 3000 (fun _ => True)
      (cursorEffect 3000 3000 .nan (.num 0) (.num 0) (initUser "a" "A")) ∧
    shipInv 3000 3000
      (cursorEffect 3000 3000 .nan (.num 0) (.num 0) (initUser "a" "A")) = false := by
  constructor
  · exact ReachP.step (Inp.cursorMove .nan (.num 0) (.num 0))
      (ReachP.init "a" "A") trivial ⟨rfl, rfl, by decide, rfl⟩
  · decide

/-- C8 (amended): an inbound cursor:move frame is rejected (no state
change, no broadcast) when the sending ship is missing or dead, or when x
or y fails the typeof number check; NaN and the infinities pass that
check, so an accepted frame stores the clamp of the raw values (through
which NaN propagates) and broadcasts one cursor:update carrying the raw
coordinates to the other sockets. -/
theorem C8_cursor_validation (W H : ℚ) (users : List User) (sid : String)
    (x y rot : JsVal) :
    (isNumType x = false ∨ isNumType y = false →
       cursorMoveHandler W H users sid x y rot = (users, [])) ∧
    (findUser users sid = none →
       cursorMoveHandler W H users sid x y rot = (users, [])) ∧
    (∀ me, findUser users sid = some me → jsLeB me.health (.num 0) = true →
       cursorMoveHandler W H users sid x y rot = (users, [])) ∧
    (∀ me, findUser users sid = some me → isNumType x = true →
       isNumType y = true → jsLeB me.health (.num 0) = false →
       cursorMoveHandler W H users sid x y rot =
         (updateUser users sid (fun u =>
            { u with x := jsMax (.num (-(W/2))) (jsMin x (.num (W/2))),
                     y := jsMax (.num (-(H/2))) (jsMin y (.num (H/2))),
                     rotation := rot }),
          [Ev.cursorUpdate sid x y (jsOrZero rot)])) := by
  refine ⟨?_, ?_, ?_, ?_⟩
  · intro h
    rcases h with h | h <;> simp [cursorMoveHandler, h]
  · intro h
    by_cases hx : isNumType x = true
    · by_cases hy : isNumType y = true
      · simp [cursorMoveHandler, hx, hy, h]
      · simp [cursorMoveHandler, Bool.eq_false_iff.mpr hy]
    · simp [cursorMoveHandler, Bool.eq_false_iff.mpr hx]
  · intro me hme hdead
    by_cases hx : isNumType x = true
    · by_cases hy : isNumType y = true
      · simp [cursorMoveHandler, hx, hy, hme, hdead]
      · simp [cursorMoveHandler, Bool.eq_false_iff.mpr hy]
    · simp [cursorMoveHandler, Bool.eq_false_iff.mpr hx]
  · intro me hme hx hy halive
    simp [cursorMoveHandler, hx, hy, hme, halive]

/-- C10 (confirmed): the health:damage handler is sender independent; when
userId names an existing player it stores the clamp of the raw health
(raising as well as lowering, for any target) and emits a health:update
for it; when userId names nobody it changes no state and emits nothing. -/
theorem C10_health_damage (now : Int) (s1 s2 : String) (users : List User)
    (uid : String) (h : JsVal) (att : Option String) :
    (findUser users uid = none →
       healthDamageHandler now s1 users uid h att = (users, [])) ∧
    (∀ u, findUser users uid = some u →
       ((findUser (healthDamageHandler now s1 users uid h att).1 uid).map
          User.health = some (clampHealth h)) ∧
       ∃ tail, (healthDamageHandler now s1 users uid h att).2 =
         Ev.healthUpdate uid (clampHealth h) none :: tail) ∧
    healthDamageHandler now s1 users uid h att =
      healthDamageHandler now s2 users uid h att := by
  refine ⟨?_, ?_, rfl⟩
  · intro hnone
    simp [healthDamageHandler, updateHealth, hnone]
  · intro u hu
    have hid : ∀ v : User, (v.id == uid) = true →
        ({ v with health := clampHealth h } : User).id = v.id := fun _ _ => rfl
    have hfind : findUser (updateUser users uid
        (fun v => { v with health := clampHealth h })) uid =
        (findUser users uid).map (fun v => { v with health := clampHealth h }) :=
      findUser_updateUser_self users uid _ hid
    by_cases hdead : jsLeB (clampHealth h) (.num 0) = true
    · constructor
      · have hstep :
            (findUser ((handleDeath now (updateUser users uid
                (fun v => { v with health := clampHealth h })) uid att).1) uid).map
              projHXY =
            (findUser (updateUser users uid
                (fun v => { v with health := clampHealth h })) uid).map projHXY :=
          handleDeath_findUser_projHXY ..
        have h2 : (findUser ((handleDeath now (updateUser users uid
            (fun v => { v with health := clampHealth h })) uid att).1) uid).map
              User.health =
            (findUser (updateUser users uid
                (fun v => { v with health := clampHealth h })) uid).map
              User.health := by
          have := congrArg (Option.map (fun t : JsVal × JsVal × JsVal => t.1)) hstep
          simpa [Option.map_map, projHXY, Function.comp] using this
        simp [healthDamageHandler, updateHealth, hu, hdead, h2, hfind]
      · exact ⟨(handleDeath now (updateUser users uid
          (fun v => { v with health := clampHealth h })) uid att).2, by
            simp [healthDamageHandler, updateHealth, hu, hdead]⟩
    · constructor
      · simp [healthDamageHandler, updateHealth, hu, hdead, hfind]
      · exact ⟨[], by simp [healthDamageHandler, updateHealth, hu, hdead]⟩

/-- C6 (amended): per tick a beam is removed exactly when its owner is
gone from the user map; a dead owner does not remove it, and the surviving
beam is refreshed to the owner current rotation while its damage sweep
runs from the owner current position, dealing 2 damage to alive non-owner
ships near the segment. -/
theorem C6_laser_owner_refresh (cosv sinv : JsVal) (users : List User)
    (l : Laser) :
    (findUser users l.userId = none →
       laserTickPlayers cosv sinv users l = (none, users, [])) ∧
    (∀ owner, findUser users l.userId = some owner →
       (laserTickPlayers cosv sinv users l).1 =
         (if l.duration - 1 ≤ 0 then none
          else some ⟨l.userId, owner.rotation, l.duration - 1⟩) ∧
       (laserTickPlayers cosv sinv users l).2 =
         laserPass owner.x owner.y cosv sinv l.userId
           (users.map (fun u => u.id)) users) := by
  constructor
  · intro h
    simp [laserTickPlayers, h]
  · intro owner h
    constructor <;> simp [laserTickPlayers, h]

/-- applyDamage never touches id, velocity or position. -/
theorem applyDamage_projVel (u : User) (d : JsVal) :
    projVel (applyDamage u d).1 = projVel u := by
  unfold applyDamage
  dsimp only
  split <;> split <;> rfl

/-- applyDamage preserves the id. -/
theorem applyDamage_id (u : User) (d : JsVal) :
    (applyDamage u d).1.id = u.id := by
  unfold applyDamage
  dsimp only
  split <;> split <;> rfl

/-- In a nodup-id list, looking a member up by its own id returns it. -/
theorem findUser_eq_of_mem_nodup {users : List User}
    (hN : (users.map User.id).Nodup) {u : User} (hu : u ∈ users) :
    findUser users u.id = some u := by
  induction users with
  | nil => cases hu
  | cons a t ih =>
      rw [List.map_cons, List.nodup_cons] at hN
      by_cases ha : (a.id == u.id) = true
      · have ha2 : a.id = u.id := by simpa using ha
        have : a = u := eq_of_mem_nodup_ids
          (by rw [List.map_cons, List.nodup_cons]; exact hN)
          (List.mem_cons_self a t) hu ha2
        rw [this]
        exact List.find?_cons_of_pos _ (by simp)
      · have hut : u ∈ t := by
          rcases List.mem_cons.mp hu with h | h
          · exfalso
            apply (by simpa using ha : ¬ a.id = u.id)
            rw [h]
          · exact h
        rw [show findUser (a :: t) u.id = findUser t u.id from
          List.find?_cons_of_neg _ (by simpa using ha)]
        exact ih hN.2 hut

/-- C1 (amended): the tick loop treats rockets and standard bullets
identically; the first alive non-owner ship within 25 units takes the flat
applyDamage 10 (shield absorbed first); no radial explosion happens, no
knockback event is emitted, and no velocity changes. -/
theorem C1_bullet_hits_flat (now : Int) (b : Bullet) (users : List User)
    (hN : (users.map User.id).Nodup) :
    bulletTickUsers now { b with isRocket := true } users =
      bulletTickUsers now { b with isRocket := false } users ∧
    (bulletTickUsers now b users).2.1.countP isKnockbackEv = 0 ∧
    (bulletTickUsers now b users).1.map projVel = users.map projVel ∧
    (∀ u, users.find? (bulletHitPred b) = some u →
      (findUser (bulletTickUsers now b users).1 u.id).map User.health =
        some ((applyDamage u (.num 10)).1.health)) := by
  refine ⟨by cases b; rfl, ?_, ?_, ?_⟩
  · unfold bulletTickUsers
    cases hfind : users.find? (bulletHitPred b) with
    | none => simp
    | some u =>
        dsimp only
        split
        · simp [List.countP_cons, isKnockbackEv, handleDeath_no_knockback]
        · simp [List.countP_cons, isKnockbackEv]
  · unfold bulletTickUsers
    cases hfind : users.find? (bulletHitPred b) with
    | none => simp
    | some u =>
        have humem : u ∈ users := List.mem_of_find?_eq_some hfind
        have hupd : (updateUser users u.id
            (fun _ => (applyDamage u (.num 10)).1)).map projVel =
            users.map projVel := by
          apply updateUser_map_proj
          intro v hv hvid
          have hvid2 : v.id = u.id := by simpa using hvid
          have : v = u := eq_of_mem_nodup_ids hN hv humem hvid2
          rw [this, applyDamage_projVel]
        dsimp only
        split
        · rw [handleDeath_map_projVel, hupd]
        · exact hupd
  · intro u hfind
    have humem : u ∈ users := List.mem_of_find?_eq_some hfind
    have hself : findUser users u.id = some u := findUser_eq_of_mem_nodup hN humem
    have hfid : ∀ v : User, (v.id == u.id) = true →
        ((fun _ : User => (applyDamage u (.num 10)).1) v).id = v.id := by
      intro v hv
      have : v.id = u.id := by simpa using hv
      rw [this, applyDamage_id]
    have hlook : findUser (updateUser users u.id
        (fun _ => (applyDamage u (.num 10)).1)) u.id =
        some ((applyDamage u (.num 10)).1) := by
      rw [findUser_updateUser_self users u.id _ hfid, hself]
      rfl
    unfold bulletTickUsers
    rw [hfind]
    dsimp only
    split
    · have hstep := handleDeath_findUser_projHXY now
        (updateUser users u.id (fun _ => (applyDamage u (.num 10)).1)) u.id
        (some b.userId) u.id
      have h2 : (findUser ((handleDeath now (updateUser users u.id
          (fun _ => (applyDamage u (.num 10)).1)) u.id (some b.userId)).1)
            u.id).map User.health =
          (findUser (updateUser users u.id
            (fun _ => (applyDamage u (.num 10)).1)) u.id).map User.health := by
        have := congrArg (Option.map (fun t : JsVal × JsVal × JsVal => t.1)) hstep
        simpa [Option.map_map, projHXY, Function.comp] using this
      rw [h2, hlook]
      rfl
    · rw [hlook]
      rfl

/-- updateHealth changes no shield. -/
theorem updateHealth_map_projShield (users : List User) (uid : String)
    (h : JsVal) :
    ((updateHealth users uid h).1).map projShield = users.map projShield := by
  unfold updateHealth
  cases hf : findUser users uid with
  | none => rfl
  | some u => exact updateUser_map_proj _ _ _ _ (fun v _ _ => rfl)

/-- updateHealth changes no velocity. -/
theorem updateHealth_map_projVel (users : List User) (uid : String)
    (h : JsVal) :
    ((updateHealth users uid h).1).map projVel = users.map projVel := by
  unfold updateHealth
  cases hf : findUser users uid with
  | none => rfl
  | some u => exact updateUser_map_proj _ _ _ _ (fun v _ _ => rfl)

/-- updateHealth leaves lookups at other ids untouched. -/
theorem updateHealth_findUser_ne (users : List User) (uid : String)
    (h : JsVal) (uid2 : String) (hne : uid2 ≠ uid) :
    findUser (updateHealth users uid h).1 uid2 = findUser users uid2 := by
  unfold updateHealth
  cases hf : findUser users uid with
  | none => rfl
  | some u => exact findUser_updateUser_ne _ _ _ _ (fun v => rfl) hne

/-- The mine damage pass changes no shield. -/
theorem minePass_map_projShield (now : Int) (m : Mine) (trig : Option String) :
    ∀ (ids : List String) (users : List User),
      ((minePass now m trig ids users).1).map projShield =
        users.map projShield := by
  intro ids
  induction ids with
  | nil => intro users; rfl
  | cons uid rest ih =>
      intro users
      unfold minePass
      cases hf : findUser users uid with
      | none => exact ih users
      | some u =>
          dsimp only
          by_cases hr : inRangeB m u = true
          · rw [if_pos hr]
            split
            · rw [ih, handleDeath_map_projShield, updateHealth_map_projShield]
            · rw [ih, updateHealth_map_projShield]
          · rw [if_neg hr]
            exact ih users

/-- The mine damage pass changes no velocity. -/
theorem minePass_map_projVel (now : Int) (m : Mine) (trig : Option String) :
    ∀ (ids : List String) (users : List User),
      ((minePass now m trig ids users).1).map projVel = users.map projVel := by
  intro ids
  induction ids with
  | nil => intro users; rfl
  | cons uid rest ih =>
      intro users
      unfold minePass
      cases hf : findUser users uid with
      | none => exact ih users
      | some u =>
          dsimp only
          by_cases hr : inRangeB m u = true
          · rw [if_pos hr]
            split
            · rw [ih, handleDeath_map_projVel, updateHealth_map_projVel]
            · rw [ih, updateHealth_map_projVel]
          · rw [if_neg hr]
            exact ih users

/-- The laser player sweep changes no shield. -/
theorem laserPass_map_projShield (px py cosv sinv : JsVal) (ownerId : String) :
    ∀ (ids : List String) (users : List User),
      ((laserPass px py cosv sinv ownerId ids users).1).map projShield =
        users.map projShield := by
  intro ids
  induction ids with
  | nil => intro users; rfl
  | cons uid rest ih =>
      intro users
      unfold laserPass
      cases hf : findUser users uid with
      | none => exact ih users
      | some t =>
          dsimp only
          split
          · exact ih users
          · split
            · exact ih users
            · split
              · dsimp only
                rw [ih, updateHealth_map_projShield]
              · exact ih users

/-- C5 (amended): only bullet damage is shield absorbed.  applyDamage
takes exactly min of shield and damage out of a positive shield and lowers
health only by the remainder; the mine damage pass and the laser sweep
bypass the shield entirely (they route through updateHealth and leave
every shield unchanged). -/
theorem C5_shield_absorption :
    (∀ (u : User) (s d : ℚ), u.shield = .num s → 0 < s → 0 ≤ d →
      ((applyDamage u (.num d)).1.shield = .num (s - min s d)) ∧
      (d ≤ s → (applyDamage u (.num d)).1.health = u.health) ∧
      (s < d → (applyDamage u (.num d)).1.health =
        clampHealth (jsMax (.num 0) (jsSub u.health (.num (d - s)))))) ∧
    (∀ (now : Int) (mines : List Mine) (users : List User) (mid : String)
       (trig : Option String),
      ((explodeMine now mines users mid trig).2.1).map projShield =
        users.map projShield) ∧
    (∀ (cosv sinv : JsVal) (users : List User) (l : Laser),
      ((laserTickPlayers cosv sinv users l).2.1).map projShield =
        users.map projShield) := by
  refine ⟨?_, ?_, ?_⟩
  · intro u s d hs hpos hd
    have hg1 : jsGtB u.shield (.num 0) = true := by
      rw [hs]
      simpa using hpos
    unfold applyDamage
    rw [if_pos hg1, hs]
    simp only [jsMin_num, jsSub_num]
    by_cases hc : d ≤ s
    · have hmin : min s d = d := min_eq_right hc
      have hg2 : jsGtB (JsVal.num (d - min s d)) (.num 0) = false := by
        simp [hmin]
      rw [hg2]
      simp only [Bool.false_eq_true, if_false]
      exact ⟨by trivial, fun _ => by trivial,
        fun hlt => absurd hc (not_le.mpr hlt)⟩
    · have hlt : s < d := not_le.mp hc
      have hmin : min s d = s := min_eq_left (le_of_lt hlt)
      have hg2 : jsGtB (JsVal.num (d - min s d)) (.num 0) = true := by
        simp [hmin]
        linarith
      rw [hg2]
      simp only [if_true]
      refine ⟨by trivial, fun hle => absurd hlt (not_lt.mpr hle), fun _ => ?_⟩
      rw [hmin]
  · intro now mines users mid trig
    unfold explodeMine
    cases hf : mines.find? (fun m => m.id == mid) with
    | none => rfl
    | some m => exact minePass_map_projShield now m trig _ users
  · intro cosv sinv users l
    unfold laserTickPlayers
    cases hf : findUser users l.userId with
    | none => rfl
    | some owner => exact laserPass_map_projShield _ _ cosv sinv _ _ users

/-- Lookup at the updated id after updateHealth. -/
theorem updateHealth_findUser_self (users : List User) (uid : String)
    (h : JsVal) (u : User) (hu : findUser users uid = some u) :
    findUser (updateHealth users uid h).1 uid =
      some { u with health := clampHealth h } := by
  unfold updateHealth
  rw [hu]
  dsimp only
  rw [findUser_updateUser_self users uid
    (fun v => { v with health := clampHealth h }) (fun v _ => rfl), hu]
  rfl

/-- The range test only reads health-position data. -/
theorem inRangeB_eq_of_projHXY (m : Mine) {u v : User}
    (h : projHXY u = projHXY v) : inRangeB m u = inRangeB m v := by
  have hx : u.x = v.x := congrArg (fun t => t.2.1) h
  have hy : u.y = v.y := congrArg (fun t => t.2.2) h
  unfold inRangeB
  rw [hx, hy]

/-- One-step equation of the damage pass. -/
theorem minePass_cons (now : Int) (m : Mine) (trig : Option String)
    (uid0 : String) (rest : List String) (users : List User) :
    minePass now m trig (uid0 :: rest) users =
      (match findUser users uid0 with
       | none => minePass now m trig rest users
       | some u =>
           if inRangeB m u then
             let nh := jsMax (.num 0) (jsSub u.health m.damage)
             let users1 := (updateHealth users uid0 nh).1
             if jsGtB u.health (.num 0) && jsLeB nh (.num 0) then
               let d := handleDeath now users1 uid0 trig
               let r := minePass now m trig rest d.1
               (r.1, Ev.healthUpdate uid0 nh none :: (d.2 ++ r.2.1), uid0 :: r.2.2)
             else
               let r := minePass now m trig rest users1
               (r.1, Ev.healthUpdate uid0 nh none :: r.2.1, r.2.2)
           else minePass now m trig rest users) := rfl

/-- Behaviour of the explodeMine damage pass on each user: users outside
the processed id snapshot keep their health-position data; each processed
user ends with health lowered by mine.damage (clamped) exactly when it was
in range, and gets the corresponding health:update event. -/
theorem minePass_health (now : Int) (m : Mine) (trig : Option String) :
    ∀ (ids : List String) (users : List User), ids.Nodup →
      (∀ uid, uid ∉ ids →
        (findUser (minePass now m trig ids users).1 uid).map projHXY =
          (findUser users uid).map projHXY) ∧
      (∀ uid u, uid ∈ ids → findUser users uid = some u →
        ((findUser (minePass now m trig ids users).1 uid).map User.health =
          some (if inRangeB m u
                then clampHealth (jsMax (.num 0) (jsSub u.health m.damage))
                else u.health)) ∧
        (inRangeB m u = true →
          Ev.healthUpdate uid (jsMax (.num 0) (jsSub u.health m.damage)) none
            ∈ (minePass now m trig ids users).2.1)) := by
  intro ids
  induction ids with
  | nil =>
      intro users _
      exact ⟨fun uid _ => rfl,
        fun uid u hmem => absurd hmem (List.not_mem_nil uid)⟩
  | cons uid0 rest ih =>
      intro users hnd
      rw [List.nodup_cons] at hnd
      cases hf : findUser users uid0 with
      | none =>
          have hres : minePass now m trig (uid0 :: rest) users =
              minePass now m trig rest users := by
            rw [minePass_cons, hf]
          rw [hres]
          refine ⟨?_, ?_⟩
          · intro uid hmem
            exact (ih users hnd.2).1 uid
              (fun hh => hmem (List.mem_cons_of_mem _ hh))
          · intro uid u hmem hu
            rcases List.mem_cons.mp hmem with h0 | h0
            · rw [h0] at hu
              rw [hu] at hf
              cases hf
            · exact (ih users hnd.2).2 uid u h0 hu
      | some u0 =>
          by_cases hr : inRangeB m u0 = true
          · -- in range: health write, optional death handling, recursion
            have key : ∀ users2 : List User,
                (∀ uid2, uid2 ≠ uid0 →
                  (findUser users2 uid2).map projHXY =
                    (findUser users uid2).map projHXY) →
                ((findUser users2 uid0).map projHXY =
                  some (projHXY { u0 with
                    health := clampHealth (jsMax (.num 0) (jsSub u0.health m.damage)) })) →
                (∀ uid, uid ∉ uid0 :: rest →
                  (findUser (minePass now m trig rest users2).1 uid).map projHXY =
                    (findUser users uid).map projHXY) ∧
                (∀ uid u, uid ∈ uid0 :: rest → findUser users uid = some u →
                  ((findUser (minePass now m trig rest users2).1 uid).map
                      User.health =
                    some (if inRangeB m u
                          then clampHealth (jsMax (.num 0) (jsSub u.health m.damage))
                          else u.health)) ∧
                  (inRangeB m u = true →
                    Ev.healthUpdate uid (jsMax (.num 0) (jsSub u.health m.damage))
                        none ∈
                      Ev.healthUpdate uid0
                          (jsMax (.num 0) (jsSub u0.health m.damage)) none ::
                        (minePass now m trig rest users2).2.1)) := by
              intro users2 hother hself
              constructor
              · intro uid hmem
                have h1 : uid ∉ rest := fun hh => hmem (List.mem_cons_of_mem _ hh)
                have h2 : uid ≠ uid0 := fun hh => hmem (hh ▸ List.mem_cons_self _ _)
                rw [(ih users2 hnd.2).1 uid h1, hother uid h2]
              · intro uid u hmem hu
                rcases List.mem_cons.mp hmem with h0 | h0
                · -- the user processed in this step
                  have hu0 : u = u0 := by
                    rw [h0] at hu
                    rw [hu] at hf
                    exact Option.some.inj hf
                  constructor
                  · have hrest := (ih users2 hnd.2).1 uid0 hnd.1
                    have hthis : (findUser (minePass now m trig rest users2).1
                        uid0).map projHXY =
                        some (projHXY { u0 with
                          health := clampHealth (jsMax (.num 0) (jsSub u0.health m.damage)) }) := by
                      rw [hrest, hself]
                    cases h2 : findUser (minePass now m trig rest users2).1 uid0 with
                    | none => rw [h2] at hthis; cases hthis
                    | some w =>
                        rw [h2] at hthis
                        have hw : projHXY w = projHXY { u0 with
                            health := clampHealth (jsMax (.num 0) (jsSub u0.health m.damage)) } := by
                          simpa using hthis
                        have hwh : w.health =
                            clampHealth (jsMax (.num 0) (jsSub u0.health m.damage)) :=
                          congrArg (fun t => t.1) hw
                        rw [h0, h2, hu0]
                        simp [hwh, hr]
                  · intro _
                    rw [h0, hu0]
                    exact List.mem_cons_self _ _
                · -- a user processed later
                  have hne : uid ≠ uid0 := by
                    intro hh
                    exact hnd.1 (hh ▸ h0)
                  have hproj : (findUser users2 uid).map projHXY =
                      some (projHXY u) := by
                    rw [hother uid hne, hu]
                    rfl
                  cases h2 : findUser users2 uid with
                  | none => rw [h2] at hproj; cases hproj
                  | some u2 =>
                      rw [h2] at hproj
                      have hpe : projHXY u2 = projHXY u := by simpa using hproj
                      have hhe : u2.health = u.health := congrArg (fun t => t.1) hpe
                      have hre : inRangeB m u2 = inRangeB m u :=
                        inRangeB_eq_of_projHXY m hpe
                      have hih := (ih users2 hnd.2).2 uid u2 h0 h2
                      constructor
                      · rw [hih.1, hre, hhe]
                      · intro hru
                        have hm2 := hih.2 (hre.symm ▸ hru)
                        rw [hhe] at hm2
                        exact List.mem_cons_of_mem _ hm2
            have hothers1 : ∀ uid2, uid2 ≠ uid0 →
                (findUser ((updateHealth users uid0
                    (jsMax (.num 0) (jsSub u0.health m.damage))).1) uid2).map
                  projHXY = (findUser users uid2).map projHXY := by
              intro uid2 hne
              rw [updateHealth_findUser_ne users uid0 _ uid2 hne]
            have hself1 : (findUser ((updateHealth users uid0
                (jsMax (.num 0) (jsSub u0.health m.damage))).1) uid0).map projHXY =
                some (projHXY { u0 with
                  health := clampHealth (jsMax (.num 0) (jsSub u0.health m.damage)) }) := by
              rw [updateHealth_findUser_self users uid0 _ u0 hf]
              rfl
            have hcons := minePass_cons now m trig uid0 rest users
            rw [hf] at hcons
            dsimp only at hcons
            rw [if_pos hr] at hcons
            by_cases hdg : (jsGtB u0.health (.num 0) &&
                jsLeB (jsMax (.num 0) (jsSub u0.health m.damage)) (.num 0)) = true
            · rw [if_pos hdg] at hcons
              have hothers2 : ∀ uid2, uid2 ≠ uid0 →
                  (findUser ((handleDeath now ((updateHealth users uid0
                      (jsMax (.num 0) (jsSub u0.health m.damage))).1) uid0
                      trig).1) uid2).map projHXY =
                    (findUser users uid2).map projHXY := by
                intro uid2 hne
                rw [handleDeath_findUser_projHXY, hothers1 uid2 hne]
              have hself2 : (findUser ((handleDeath now ((updateHealth users uid0
                  (jsMax (.num 0) (jsSub u0.health m.damage))).1) uid0
                  trig).1) uid0).map projHXY =
                  some (projHXY { u0 with
                    health := clampHealth (jsMax (.num 0) (jsSub u0.health m.damage)) }) := by
                rw [handleDeath_findUser_projHXY, hself1]
              have hk := key _ hothers2 hself2
              rw [hcons]
              refine ⟨fun uid hmem => hk.1 uid hmem, ?_⟩
              intro uid u hmem hu
              refine ⟨(hk.2 uid u hmem hu).1, fun hru => ?_⟩
              have hin := (hk.2 uid u hmem hu).2 hru
              rcases List.mem_cons.mp hin with h1 | h1
              · rw [h1]
                exact List.mem_cons_self _ _
              · exact List.mem_cons_of_mem _ (List.mem_append_right _ h1)
            · rw [if_neg hdg] at hcons
              have hk := key _ hothers1 hself1
              rw [hcons]
              exact ⟨fun uid hmem => hk.1 uid hmem,
                fun uid u hmem hu => (hk.2 uid u hmem hu)⟩
          · -- out of range: nothing happens to this user
            have hres : minePass now m trig (uid0 :: rest) users =
                minePass now m trig rest users := by
              rw [minePass_cons, hf]
              dsimp only
              rw [if_neg hr]
            rw [hres]
            refine ⟨?_, ?_⟩
            · intro uid hmem
              exact (ih users hnd.2).1 uid
                (fun hh => hmem (List.mem_cons_of_mem _ hh))
            · intro uid u hmem hu
              rcases List.mem_cons.mp hmem with h0 | h0
              · have hu0 : u = u0 := by
                  rw [h0] at hu
                  rw [hu] at hf
                  exact Option.some.inj hf
                constructor
                · have hrest := (ih users hnd.2).1 uid0 hnd.1
                  have hrest2 : (findUser (minePass now m trig rest users).1
                      uid0).map User.health =
                      (findUser users uid0).map User.health := by
                    have := congrArg
                      (Option.map (fun t : JsVal × JsVal × JsVal => t.1)) hrest
                    simpa [Option.map_map, projHXY, Function.comp] using this
                  rw [h0, hrest2, hf, hu0]
                  have hru : inRangeB m u0 = false := by simpa using hr
                  simp [hru]
                · intro hru
                  rw [hu0] at hru
                  rw [hru] at hr
                  exact absurd rfl hr
              · exact (ih users hnd.2).2 uid u h0 hu

/-- The damage pass emits no knockback event. -/
theorem minePass_no_knockback (now : Int) (m : Mine) (trig : Option String) :
    ∀ (ids : List String) (users : List User),
      ((minePass now m trig ids users).2.1).countP isKnockbackEv = 0 := by
  intro ids
  induction ids with
  | nil => intro users; rfl
  | cons uid0 rest ih =>
      intro users
      rw [minePass_cons]
      cases hf : findUser users uid0 with
      | none => exact ih users
      | some u0 =>
          dsimp only
          by_cases hr : inRangeB m u0 = true
          · rw [if_pos hr]
            split
            · simp [List.countP_cons, isKnockbackEv, List.countP_append,
                handleDeath_no_knockback, ih]
            · simp [List.countP_cons, isKnockbackEv, ih]
          · rw [if_neg hr]
            exact ih users

/-- C2 (amended): when a mine explodes, every ship within damageRadius has
its health reduced by 40 (clamped through updateHealth) and gets a
health:update broadcast, but no knockback is applied (velocities are
untouched) and no knockback event is broadcast. -/
theorem C2_mine_explosion (now : Int) (mines : List Mine) (users : List User)
    (mid : String) (trig : Option String)
    (hN : (users.map User.id).Nodup) :
    ((explodeMine now mines users mid trig).2.2.1).countP isKnockbackEv = 0 ∧
    ((explodeMine now mines users mid trig).2.1).map projVel =
      users.map projVel ∧
    (∀ m, mines.find? (fun mm => mm.id == mid) = some m →
      ∀ u, u ∈ users →
        ((findUser (explodeMine now mines users mid trig).2.1 u.id).map
            User.health =
          some (if inRangeB m u
                then clampHealth (jsMax (.num 0) (jsSub u.health m.damage))
                else u.health)) ∧
        (inRangeB m u = true →
          Ev.healthUpdate u.id (jsMax (.num 0) (jsSub u.health m.damage)) none
            ∈ (explodeMine now mines users mid trig).2.2.1)) := by
  refine ⟨?_, ?_, ?_⟩
  · unfold explodeMine
    cases hf : mines.find? (fun mm => mm.id == mid) with
    | none => rfl
    | some m =>
        simp [List.countP_cons, isKnockbackEv, minePass_no_knockback]
  · unfold explodeMine
    cases hf : mines.find? (fun mm => mm.id == mid) with
    | none => rfl
    | some m => exact minePass_map_projVel now m trig _ users
  · intro m hf u hu
    have hids : (users.map User.id).Nodup := hN
    have hmem : u.id ∈ users.map User.id := List.mem_map_of_mem User.id hu
    have hfind : findUser users u.id = some u := findUser_eq_of_mem_nodup hN hu
    have hmp := (minePass_health now m trig (users.map User.id) users hids).2
      u.id u hmem hfind
    constructor
    · unfold explodeMine
      rw [hf]
      exact hmp.1
    · intro hr
      unfold explodeMine
      rw [hf]
      exact List.mem_cons_of_mem _ (hmp.2 hr)

/-- The laser player sweep emits no respawn event. -/
theorem laserPass_no_respawn (px py cosv sinv : JsVal) (ownerId : String) :
    ∀ (ids : List String) (users : List User),
      ((laserPass px py cosv sinv ownerId ids users).2).countP isRespawnEv = 0 := by
  intro ids
  induction ids with
  | nil => intro users; rfl
  | cons uid rest ih =>
      intro users
      unfold laserPass
      cases hf : findUser users uid with
      | none => exact ih users
      | some t =>
          dsimp only
          split
          · exact ih users
          · split
            · exact ih users
            · split
              · dsimp only
                simp [List.countP_cons, isRespawnEv, ih]
              · exact ih users

/-- Respawn events of the damage pass match its death log one for one. -/
theorem minePass_respawn_deaths (now : Int) (m : Mine) (trig : Option String) :
    ∀ (ids : List String) (users : List User),
      ((minePass now m trig ids users).2.1).countP isRespawnEv =
        ((minePass now m trig ids users).2.2).length := by
  intro ids
  induction ids with
  | nil => intro users; rfl
  | cons uid0 rest ih =>
      intro users
      rw [minePass_cons]
      cases hf : findUser users uid0 with
      | none => exact ih users
      | some u0 =>
          dsimp only
          by_cases hr : inRangeB m u0 = true
          · rw [if_pos hr]
            split
            · simp [List.countP_cons, List.countP_append, isRespawnEv,
                (handleDeath_one_respawn now _ uid0 trig).1, ih]
              omega
            · simp [List.countP_cons, isRespawnEv, ih]
          · rw [if_neg hr]
            exact ih users

/-- C4 (amended): every invocation of handleDeath emits exactly one
player:respawn, timed at the death time plus 6000 ms, and the deferred
reset restores health 100, relocates to a uniform interior point and
resets the weapon; the bullet, mine and health:damage paths invoke
handleDeath exactly on their death conditions, while a laser kill of a
player triggers no death handling and no respawn at all. -/
theorem C4_death_respawn :
    (∀ (now : Int) (users : List User) (v : String) (a : Option String),
      ((handleDeath now users v a).2).countP isRespawnEv = 1 ∧
      Ev.playerRespawn v (now + 6000) ∈ (handleDeath now users v a).2) ∧
    (∀ (now : Int) (b : Bullet) (users : List User),
      ((bulletTickUsers now b users).2.1).countP isRespawnEv =
        (match users.find? (bulletHitPred b) with
         | none => 0
         | some u => if (applyDamage u (.num 10)).2 = .num 0 then 1 else 0)) ∧
    (∀ (now : Int) (mines : List Mine) (users : List User) (mid : String)
        (trig : Option String),
      ((explodeMine now mines users mid trig).2.2.1).countP isRespawnEv =
        ((explodeMine now mines users mid trig).2.2.2).length) ∧
    (∀ (now : Int) (s : String) (users : List User) (uid : String)
        (h : JsVal) (att : Option String),
      ((healthDamageHandler now s users uid h att).2).countP isRespawnEv =
        (match findUser users uid with
         | none => 0
         | some _ => if jsLeB (clampHealth h) (.num 0) then 1 else 0)) ∧
    (∀ (W H : ℚ) (users : List User) (uid : String) (r1 r2 : ℚ) (u : User),
      findUser users uid = some u → 0 ≤ W → 0 ≤ H →
      0 ≤ r1 → r1 < 1 → 0 ≤ r2 → r2 < 1 →
      findUser (respawnAction W H users uid r1 r2).1 uid =
        some { u with
          health := .num 100,
          x := .num ((r1 - 1/2) * W),
          y := .num ((r2 - 1/2) * H),
          weaponType := "machineGun" } ∧
      |(r1 - 1/2) * W| ≤ W / 2 ∧ |(r2 - 1/2) * H| ≤ H / 2 ∧
      (respawnAction W H users uid r1 r2).2 =
        [Ev.healthUpdate uid (.num 100) (some (jsOrZero u.shield)),
         Ev.cursorUpdate uid (.num ((r1 - 1/2) * W)) (.num ((r2 - 1/2) * H))
           (.num 0)]) ∧
    (∀ (cosv sinv : JsVal) (users : List User) (l : Laser),
      ((laserTickPlayers cosv sinv users l).2.2).countP isRespawnEv = 0) := by
  refine ⟨handleDeath_one_respawn, ?_, ?_, ?_, ?_, ?_⟩
  · intro now b users
    unfold bulletTickUsers
    cases hf : users.find? (bulletHitPred b) with
    | none => rfl
    | some u =>
        dsimp only
        split
        · simp [List.countP_cons, isRespawnEv,
            (handleDeath_one_respawn now _ u.id (some b.userId)).1]
        · simp [List.countP_cons, isRespawnEv]
  · intro now mines users mid trig
    unfold explodeMine
    cases hf : mines.find? (fun mm => mm.id == mid) with
    | none => rfl
    | some m =>
        simp [List.countP_cons, isRespawnEv, minePass_respawn_deaths]
  · intro now s users uid h att
    unfold healthDamageHandler updateHealth
    cases hf : findUser users uid with
    | none => rfl
    | some u =>
        dsimp only
        split
        · simp [List.countP_cons, isRespawnEv,
            (handleDeath_one_respawn now _ uid att).1]
        · simp [List.countP_cons, isRespawnEv]
  · intro W H users uid r1 r2 u hu hW hH hr1a hr1b hr2a hr2b
    have habs1 : |(r1 - 1/2) * W| ≤ W / 2 := by
      rw [abs_mul, abs_of_nonneg hW]
      have h1 : |r1 - 1/2| ≤ 1/2 := abs_le.mpr ⟨by linarith, by linarith⟩
      have := mul_le_mul_of_nonneg_right h1 hW
      linarith
    have habs2 : |(r2 - 1/2) * H| ≤ H / 2 := by
      rw [abs_mul, abs_of_nonneg hH]
      have h1 : |r2 - 1/2| ≤ 1/2 := abs_le.mpr ⟨by linarith, by linarith⟩
      have := mul_le_mul_of_nonneg_right h1 hH
      linarith
    refine ⟨?_, habs1, habs2, ?_⟩
    · unfold respawnAction
      rw [hu]
      dsimp only
      rw [findUser_updateUser_self users uid (fun v => { v with health := .num 100, x := .num ((r1 - 1/2) * W), y := .num ((r2 - 1/2) * H), weaponType := "machineGun" }) (fun v _ => rfl), hu]
      rfl
    · unfold respawnAction
      rw [hu]
  · intro cosv sinv users l
    unfold laserTickPlayers
    cases hf : findUser users l.userId with
    | none => rfl
    | some owner => exact laserPass_no_respawn _ _ cosv sinv _ _ users

/- Helper lemmas for the claim three invariant. -/

/-- Auxiliary strengthening of the invariant: health and both coordinates
are finite and in range, and both velocity components are finite. -/
def NiceShip (W H : ℚ) (u : User) : Prop :=
  (∃ hq : ℚ, u.health = .num hq ∧ 0 ≤ hq ∧ hq ≤ 100) ∧
  (∃ a : ℚ, u.x = .num a ∧ |a| ≤ W/2) ∧
  (∃ b2 : ℚ, u.y = .num b2 ∧ |b2| ≤ H/2) ∧
  (∃ va : ℚ, u.vx = .num va) ∧ (∃ vb : ℚ, u.vy = .num vb)

/-- A uniform draw scaled to the map stays in the half extents. -/
theorem half_interval_abs (W r : ℚ) (hW : 0 ≤ W) (h0 : 0 ≤ r) (h1 : r < 1) :
    |(r - 1/2) * W| ≤ W/2 := by
  rw [abs_mul, abs_of_nonneg hW]
  have h2 : |r - 1/2| ≤ 1/2 := abs_le.mpr ⟨by linarith, by linarith⟩
  have := mul_le_mul_of_nonneg_right h2 hW
  linarith

/-- The JS clamp to the half extents turns any non-NaN value into a finite
bounded one. -/
theorem clampPos_bounds (W : ℚ) (hW : 0 ≤ W) (v : JsVal) (hn : v ≠ .nan)
    (hu : v ≠ .undef) :
    ∃ a : ℚ, jsMax (.num (-(W/2))) (jsMin v (.num (W/2))) = .num a ∧
      |a| ≤ W/2 := by
  have hhalf : -(W/2) ≤ W/2 := by linarith
  cases v with
  | undef => exact absurd rfl hu
  | nan => exact absurd rfl hn
  | posInf =>
      refine ⟨W/2, ?_, by rw [abs_of_nonneg (by linarith)]⟩
      show jsMax (.num (-(W/2))) (.num (W/2)) = .num (W/2)
      rw [jsMax_num]
      rw [max_eq_right hhalf]
  | negInf =>
      refine ⟨-(W/2), rfl, ?_⟩
      rw [abs_neg, abs_of_nonneg (by linarith)]
  | num q =>
      refine ⟨max (-(W/2)) (min q (W/2)), by rw [jsMin_num, jsMax_num], ?_⟩
      rw [abs_le]
      constructor
      · exact le_max_left _ _
      · exact max_le hhalf (le_trans (min_le_right _ _) (le_refl _))

/-- The updateHealth clamp turns any non-NaN value into a finite health in
the unit interval scaled to 100. -/
theorem clampHealth_bounds (v : JsVal) (hn : v ≠ .nan) (hu : v ≠ .undef) :
    ∃ hq : ℚ, clampHealth v = .num hq ∧ 0 ≤ hq ∧ hq ≤ 100 := by
  cases v with
  | undef => exact absurd rfl hu
  | nan => exact absurd rfl hn
  | posInf =>
      refine ⟨100, ?_, by norm_num, le_refl _⟩
      show jsMax (.num 0) (jsMin (.num 100) .posInf) = .num 100
      rfl
  | negInf =>
      refine ⟨0, rfl, le_refl _, by norm_num⟩
  | num q =>
      refine ⟨max 0 (min 100 q), ?_, le_max_left _ _,
        max_le (by norm_num) (min_le_left _ _)⟩
      unfold clampHealth
      rw [jsMin_num, jsMax_num]

/-- applyDamage does not move the ship nor change its velocity. -/
theorem applyDamage_keeps (u : User) (d : JsVal) :
    (applyDamage u d).1.x = u.x ∧ (applyDamage u d).1.y = u.y ∧
    (applyDamage u d).1.vx = u.vx ∧ (applyDamage u d).1.vy = u.vy := by
  unfold applyDamage
  dsimp only
  split <;> split <;> exact ⟨rfl, rfl, rfl, rfl⟩

/-- Whatever the shield holds, applyDamage with a finite damage keeps a
bounded finite health bounded and finite. -/
theorem applyDamage_health_bounds (u : User) (d : ℚ) (hq : ℚ)
    (hh : u.health = .num hq) (h0 : 0 ≤ hq) (h1 : hq ≤ 100) :
    ∃ hq2 : ℚ, (applyDamage u (.num d)).1.health = .num hq2 ∧
      0 ≤ hq2 ∧ hq2 ≤ 100 := by
  have hclamp : ∀ w : ℚ, ∃ hq2 : ℚ,
      clampHealth (jsMax (.num 0) (jsSub (.num hq) (.num w))) = .num hq2 ∧
      0 ≤ hq2 ∧ hq2 ≤ 100 := by
    intro w
    refine ⟨max 0 (min 100 (max 0 (hq - w))), ?_, le_max_left _ _,
      max_le (by norm_num) (min_le_left _ _)⟩
    simp [clampHealth]
  cases hsv : u.shield with
  | num s =>
      by_cases hpos : (0 : ℚ) < s
      · by_cases hg : (0 : ℚ) < d - min s d
        · have hrw : (applyDamage u (.num d)).1.health =
              clampHealth (jsMax (.num 0) (jsSub (.num hq) (.num (d - min s d)))) := by
            simp [applyDamage, hsv, hh, hpos, hg]
          rw [hrw]
          exact hclamp _
        · have hrw : (applyDamage u (.num d)).1.health = u.health := by
            simp [applyDamage, hsv, hpos, hg]
          rw [hrw, hh]
          exact ⟨hq, rfl, h0, h1⟩
      · by_cases hg : (0 : ℚ) < d
        · have hrw : (applyDamage u (.num d)).1.health =
              clampHealth (jsMax (.num 0) (jsSub (.num hq) (.num d))) := by
            simp [applyDamage, hsv, hh, hpos, hg]
          rw [hrw]
          exact hclamp _
        · have hrw : (applyDamage u (.num d)).1.health = u.health := by
            simp [applyDamage, hsv, hpos, hg]
          rw [hrw, hh]
          exact ⟨hq, rfl, h0, h1⟩
  | posInf =>
      have hrw : (applyDamage u (.num d)).1.health = u.health := by
        simp [applyDamage, hsv, jsGtB, jsLtB, jsMin, jsSub, jsAdd, jsNeg, toNum]
      rw [hrw, hh]
      exact ⟨hq, rfl, h0, h1⟩
  | undef =>
      by_cases hg : (0 : ℚ) < d
      · have hrw : (applyDamage u (.num d)).1.health =
            clampHealth (jsMax (.num 0) (jsSub (.num hq) (.num d))) := by
          simp [applyDamage, hsv, hh, hg, jsGtB, jsLtB, toNum]
        rw [hrw]
        exact hclamp _
      · have hrw : (applyDamage u (.num d)).1.health = u.health := by
          simp [applyDamage, hsv, hg, jsGtB, jsLtB, toNum]
        rw [hrw, hh]
        exact ⟨hq, rfl, h0, h1⟩
  | nan =>
      by_cases hg : (0 : ℚ) < d
      · have hrw : (applyDamage u (.num d)).1.health =
            clampHealth (jsMax (.num 0) (jsSub (.num hq) (.num d))) := by
          simp [applyDamage, hsv, hh, hg, jsGtB, jsLtB, toNum]
        rw [hrw]
        exact hclamp _
      · have hrw : (applyDamage u (.num d)).1.health = u.health := by
          simp [applyDamage, hsv, hg, jsGtB, jsLtB, toNum]
        rw [hrw, hh]
        exact ⟨hq, rfl, h0, h1⟩
  | negInf =>
      by_cases hg : (0 : ℚ) < d
      · have hrw : (applyDamage u (.num d)).1.health =
            clampHealth (jsMax (.num 0) (jsSub (.num hq) (.num d))) := by
          simp [applyDamage, hsv, hh, hg, jsGtB, jsLtB, toNum]
        rw [hrw]
        exact hclamp _
      · have hrw : (applyDamage u (.num d)).1.health = u.health := by
          simp [applyDamage, hsv, hg, jsGtB, jsLtB, toNum]
        rw [hrw, hh]
        exact ⟨hq, rfl, h0, h1⟩

/-- Friction and snap keep a finite velocity finite. -/
theorem frictionSnap_num (va : ℚ) : ∃ c : ℚ, frictionSnap (.num va) = .num c := by
  unfold frictionSnap
  dsimp only
  split
  · exact ⟨0, rfl⟩
  · exact ⟨va * (23/25), by rw [jsMul_num]⟩

/-- The speed cap relation keeps finite velocities finite. -/
theorem capRel_num (f g : ℚ) (vx2 vy2 : JsVal)
    (hc : CapRel (.num f) (.num g) vx2 vy2) :
    (∃ p : ℚ, vx2 = .num p) ∧ ∃ q : ℚ, vy2 = .num q := by
  unfold CapRel at hc
  by_cases hcond : speedCond (.num f) (.num g) = true
  · rw [if_pos hcond] at hc
    obtain ⟨c, _, h1, h2, _⟩ := hc
    exact ⟨⟨f * c, h1⟩, ⟨g * c, h2⟩⟩
  · rw [if_neg hcond] at hc
    exact ⟨⟨f, hc.1⟩, ⟨g, hc.2⟩⟩

/-- Clamped damage arithmetic stays a bounded finite health. -/
theorem clamp_sub_bounds (hq w : ℚ) :
    ∃ hq2 : ℚ, clampHealth (jsMax (.num 0) (jsSub (.num hq) (.num w))) =
      .num hq2 ∧ 0 ≤ hq2 ∧ hq2 ≤ 100 := by
  refine ⟨max 0 (min 100 (max 0 (hq - w))), ?_, le_max_left _ _,
    max_le (by norm_num) (min_le_left _ _)⟩
  simp [clampHealth]

/-- C3 (amended): the per-ship invariant 0 ≤ health ≤ 100 and |x| ≤ W/2,
|y| ≤ H/2 holds in every reachable state, provided no accepted cursor:move
frame carries a NaN coordinate and no health:damage frame carries a NaN or
undefined health (the handler typeof check does not reject those, and the
Math clamp propagates NaN into the stored state). -/
theorem C3_invariant_amended (W H : ℚ) (hW : 0 ≤ W) (hH : 0 ≤ H)
    (u : User) (hu : ReachP W H goodInp u) : shipInv W H u = true := by
  have nice : NiceShip W H u := by
    induction hu with
    | init uid lbl =>
        refine ⟨⟨100, rfl, by norm_num, le_refl _⟩, ⟨0, rfl, ?_⟩,
          ⟨0, rfl, ?_⟩, ⟨0, rfl⟩, ⟨0, rfl⟩⟩
        · rw [abs_zero]
          linarith
        · rw [abs_zero]
          linarith
    | @step u1 u2 i hre hP hstep ih =>
        obtain ⟨⟨hq, hh, h0, h1⟩, ⟨a, hx, ha⟩, ⟨b2, hy, hb⟩, ⟨va, hvx⟩,
          ⟨vb, hvy⟩⟩ := ih
        cases i with
        | cursorMove x y rot =>
            obtain ⟨hxT, hyT, _, hu2⟩ := hstep
            obtain ⟨hxn, hyn⟩ := hP
            subst hu2
            have hxu : x ≠ .undef := by
              intro hc
              rw [hc] at hxT
              cases hxT
            have hyu : y ≠ .undef := by
              intro hc
              rw [hc] at hyT
              cases hyT
            refine ⟨⟨hq, hh, h0, h1⟩, ?_, ?_, ⟨va, hvx⟩, ⟨vb, hvy⟩⟩
            · simpa [cursorEffect] using clampPos_bounds W hW x hxn hxu
            · simpa [cursorEffect] using clampPos_bounds H hH y hyn hyu
        | healthFrame h =>
            obtain ⟨hn, hun⟩ := hP
            subst hstep
            refine ⟨?_, ⟨a, hx, ha⟩, ⟨b2, hy, hb⟩, ⟨va, hvx⟩, ⟨vb, hvy⟩⟩
            simpa [healthFrameEffect] using clampHealth_bounds h hn hun
        | bulletHit =>
            obtain ⟨_, hu2⟩ := hstep
            subst hu2
            obtain ⟨hkx, hky, hkvx, hkvy⟩ := applyDamage_keeps u1 (.num 10)
            refine ⟨?_, ⟨a, ?_, ha⟩, ⟨b2, ?_, hb⟩, ⟨va, ?_⟩, ⟨vb, ?_⟩⟩
            · simpa [bulletHitEffect] using
                applyDamage_health_bounds u1 10 hq hh h0 h1
            · rw [show (bulletHitEffect u1).x = (applyDamage u1 (.num 10)).1.x
                from rfl, hkx]
              exact hx
            · rw [show (bulletHitEffect u1).y = (applyDamage u1 (.num 10)).1.y
                from rfl, hky]
              exact hy
            · rw [show (bulletHitEffect u1).vx = (applyDamage u1 (.num 10)).1.vx
                from rfl, hkvx]
              exact hvx
            · rw [show (bulletHitEffect u1).vy = (applyDamage u1 (.num 10)).1.vy
                from rfl, hkvy]
              exact hvy
        | mineBlast =>
            subst hstep
            refine ⟨?_, ⟨a, hx, ha⟩, ⟨b2, hy, hb⟩, ⟨va, hvx⟩, ⟨vb, hvy⟩⟩
            have : (mineBlastEffect u1).health =
                clampHealth (jsMax (.num 0) (jsSub (.num hq) (.num 40))) := by
              simp [mineBlastEffect, hh]
            rw [this]
            exact clamp_sub_bounds hq 40
        | laserTick =>
            obtain ⟨_, hu2⟩ := hstep
            subst hu2
            refine ⟨?_, ⟨a, hx, ha⟩, ⟨b2, hy, hb⟩, ⟨va, hvx⟩, ⟨vb, hvy⟩⟩
            have : (laserTickEffect u1).health =
                clampHealth (jsMax (.num 0) (jsSub (.num hq) (.num 2))) := by
              simp [laserTickEffect, hh]
            rw [this]
            exact clamp_sub_bounds hq 2
        | healPack =>
            obtain ⟨_, hu2⟩ := hstep
            subst hu2
            refine ⟨?_, ⟨a, hx, ha⟩, ⟨b2, hy, hb⟩, ⟨va, hvx⟩, ⟨vb, hvy⟩⟩
            have : (healPackEffect u1).health =
                .num (max 0 (min 100 (min 100 (hq + 50)))) := by
              simp [healPackEffect, hh, clampHealth]
            rw [this]
            exact ⟨max 0 (min 100 (min 100 (hq + 50))), rfl, le_max_left _ _,
              max_le (by norm_num) (min_le_left _ _)⟩
        | shieldPickup =>
            obtain ⟨_, hu2⟩ := hstep
            subst hu2
            exact ⟨⟨hq, hh, h0, h1⟩, ⟨a, hx, ha⟩, ⟨b2, hy, hb⟩, ⟨va, hvx⟩,
              ⟨vb, hvy⟩⟩
        | respawn r1 r2 =>
            obtain ⟨hr1a, hr1b, hr2a, hr2b, hu2⟩ := hstep
            subst hu2
            exact ⟨⟨100, rfl, by norm_num, le_refl _⟩,
              ⟨(r1 - 1/2) * W, rfl, half_interval_abs W r1 hW hr1a hr1b⟩,
              ⟨(r2 - 1/2) * H, rfl, half_interval_abs H r2 hH hr2a hr2b⟩,
              ⟨va, hvx⟩, ⟨vb, hvy⟩⟩
        | physicsTick vx2 vy2 =>
            obtain ⟨hcap, hu2⟩ := hstep
            subst hu2
            rw [hvx, hvy] at hcap
            obtain ⟨c1, hc1⟩ := frictionSnap_num va
            obtain ⟨c2, hc2⟩ := frictionSnap_num vb
            rw [hc1, hc2] at hcap
            obtain ⟨⟨p, hp⟩, ⟨q2, hq2⟩⟩ := capRel_num c1 c2 vx2 vy2 hcap
            have hxeq : (physicsFinish W H u1 vx2 vy2).x =
                jsMax (.num (-(W/2))) (jsMin (.num (a + va)) (.num (W/2))) := by
              simp [physicsFinish, hx, hvx]
            have hyeq : (physicsFinish W H u1 vx2 vy2).y =
                jsMax (.num (-(H/2))) (jsMin (.num (b2 + vb)) (.num (H/2))) := by
              simp [physicsFinish, hy, hvy]
            refine ⟨⟨hq, hh, h0, h1⟩, ?_, ?_, ?_, ?_⟩
            · rw [hxeq]
              exact clampPos_bounds W hW (.num (a + va)) (by simp) (by simp)
            · rw [hyeq]
              exact clampPos_bounds H hH (.num (b2 + vb)) (by simp) (by simp)
            · have hveq : (physicsFinish W H u1 vx2 vy2).vx =
                  (if jsLeB (jsMax (.num (-(W/2)))
                        (jsMin (jsAdd u1.x u1.vx) (.num (W/2)))) (.num (-(W/2))) ||
                      jsGeB (jsMax (.num (-(W/2)))
                        (jsMin (jsAdd u1.x u1.vx) (.num (W/2)))) (.num (W/2))
                   then jsMul vx2 (.num (-(1/2))) else vx2) := by
                simp [physicsFinish]
              rw [hveq, hp]
              split
              · exact ⟨p * -(1/2), by rw [jsMul_num]⟩
              · exact ⟨p, rfl⟩
            · have hveq : (physicsFinish W H u1 vx2 vy2).vy =
                  (if jsLeB (jsMax (.num (-(H/2)))
                        (jsMin (jsAdd u1.y u1.vy) (.num (H/2)))) (.num (-(H/2))) ||
                      jsGeB (jsMax (.num (-(H/2)))
                        (jsMin (jsAdd u1.y u1.vy) (.num (H/2)))) (.num (H/2))
                   then jsMul vy2 (.num (-(1/2))) else vy2) := by
                simp [physicsFinish]
              rw [hveq, hq2]
              split
              · exact ⟨q2 * -(1/2), by rw [jsMul_num]⟩
              · exact ⟨q2, rfl⟩
  obtain ⟨⟨hq, hh, h0, h1⟩, ⟨a, hx, ha⟩, ⟨b2, hy, hb⟩, _, _⟩ := nice
  unfold shipInv
  rw [hh, hx, hy]
  simp [h0, h1, ha, hb]

/- Claim seven: the mine cascade explodes exactly one connected component. -/

/-- Injectivity on members of a list with nodup keys. -/
theorem eq_of_mem_nodup_key {α β : Type} (key : α → β) {l : List α}
    (hN : (l.map key).Nodup) {a b2 : α}
    (ha : a ∈ l) (hb : b2 ∈ l) (hab : key a = key b2) : a = b2 := by
  induction l with
  | nil => cases ha
  | cons u t ih =>
      rw [List.map_cons, List.nodup_cons] at hN
      rcases List.mem_cons.mp ha with ha1 | ha1 <;>
        rcases List.mem_cons.mp hb with hb1 | hb1
      · rw [ha1, hb1]
      · exfalso
        apply hN.1
        have : key u = key b2 := by rw [← ha1]; exact hab
        rw [this]
        exact List.mem_map_of_mem key hb1
      · exfalso
        apply hN.1
        have : key u = key a := by rw [← hb1]; exact hab.symm
        rw [this]
        exact List.mem_map_of_mem key ha1
      · exact ih hN.2 ha1 hb1

/-- With pairwise distinct ids, removing the first mine matching an id is
the same as filtering that id out. -/
theorem eraseP_byId (mines : List Mine) (mineId : String)
    (hN : (mines.map Mine.id).Nodup) :
    mines.eraseP (fun m => m.id == mineId) =
      mines.filter (fun m => !(m.id == mineId)) := by
  induction mines with
  | nil => rfl
  | cons a t ih =>
      rw [List.map_cons, List.nodup_cons] at hN
      by_cases ha : (a.id == mineId) = true
      · rw [show List.eraseP (fun m => m.id == mineId) (a :: t) = t from
            List.eraseP_cons_of_pos ha]
        have hstep : List.filter (fun m => !(m.id == mineId)) (a :: t) =
            List.filter (fun m => !(m.id == mineId)) t := by
          simp [List.filter_cons, ha]
        rw [hstep]
        have hall : ∀ x ∈ t, (!(x.id == mineId)) = true := by
          intro x hx
          have hax : ¬ x.id = a.id := by
            intro hc
            exact hN.1 (hc ▸ List.mem_map_of_mem Mine.id hx)
          have ha2 : a.id = mineId := by simpa using ha
          have : ¬ x.id = mineId := by
            intro hc
            exact hax (by rw [hc, ha2])
          simpa using this
        rw [List.filter_eq_self.mpr hall]
      · rw [show List.eraseP (fun m => m.id == mineId) (a :: t) =
              a :: List.eraseP (fun m => m.id == mineId) t from
            List.eraseP_cons_of_neg ha]
        have hstep : List.filter (fun m => !(m.id == mineId)) (a :: t) =
            a :: List.filter (fun m => !(m.id == mineId)) t := by
          simp [List.filter_cons, ha]
        rw [hstep, ih hN.2]

/-- The edge relation of the chain claim: the target is one of the mines
and the blast condition from the source holds. -/
def chainEdge (mines : List Mine) (a b : Mine) : Prop :=
  b ∈ mines ∧ inBlast a b = true

/-- Paths through a sublist lift. -/
theorem chainEdge_mono {mines : List Mine} (q : Mine → Bool) {a m : Mine}
    (h : Relation.ReflTransGen (chainEdge (mines.filter q)) a m) :
    Relation.ReflTransGen (chainEdge mines) a m := by
  refine Relation.ReflTransGen.mono ?_ h
  intro x y hxy
  exact ⟨List.mem_of_mem_filter hxy.1, hxy.2⟩

/-- Splitting a path at the last vertex taken out by a filter: either the
whole path avoids the removed vertices, or some removed vertex reaches the
target inside the filtered list. -/
theorem reach_split (rem : List Mine) (p : Mine → Bool) (a m : Mine)
    (hpath : Relation.ReflTransGen (chainEdge rem) a m)
    (hm : m ∈ rem.filter (fun x => !(p x))) :
    (∃ h2 ∈ rem.filter p,
        Relation.ReflTransGen (chainEdge (rem.filter (fun x => !(p x)))) h2 m) ∨
      Relation.ReflTransGen (chainEdge (rem.filter (fun x => !(p x)))) a m := by
  induction hpath using Relation.ReflTransGen.head_induction_on with
  | refl => exact Or.inr Relation.ReflTransGen.refl
  | @head a2 c hac hcm ihc =>
      rcases ihc with ⟨h2, hmem, hp2⟩ | hp2
      · exact Or.inl ⟨h2, hmem, hp2⟩
      · by_cases hpc : p c = true
        · exact Or.inl ⟨c, List.mem_filter.mpr ⟨hac.1, hpc⟩, hp2⟩
        · refine Or.inr (Relation.ReflTransGen.head ?_ hp2)
          exact ⟨List.mem_filter.mpr ⟨hac.1, by simpa using hpc⟩, hac.2⟩

/-- One-step equation of the chain worklist. -/
theorem chainReactions_cons (rem : List Mine) (e : Mine) (qs : List Mine) :
    chainReactions rem (e :: qs) =
      ((chainReactions (rem.filter (fun m => !(inBlast e m)))
          (qs ++ rem.filter (fun m => inBlast e m))).1,
       rem.filter (fun m => inBlast e m) ++
         (chainReactions (rem.filter (fun m => !(inBlast e m)))
           (qs ++ rem.filter (fun m => inBlast e m))).2) := by
  rw [chainReactions]

/-- Worklist soundness and completeness: a mine ends up exploded exactly
when it is still present and reachable through blast edges from a pending
explosion. -/
theorem chainReactions_mem :
    ∀ (n : ℕ) (rem queue : List Mine),
      2 * rem.length + queue.length ≤ n → (∀ e ∈ queue, e ∉ rem) →
      ∀ m, m ∈ (chainReactions rem queue).2 ↔
        m ∈ rem ∧ ∃ e ∈ queue, Relation.ReflTransGen (chainEdge rem) e m := by
  intro n
  induction n with
  | zero =>
      intro rem queue hlen hdisj m
      cases queue with
      | nil => simp [chainReactions]
      | cons e qs => simp at hlen
  | succ n ih =>
      intro rem queue hlen hdisj m
      cases queue with
      | nil => simp [chainReactions]
      | cons e qs =>
          rw [chainReactions_cons]
          have hpart := length_filter_partition (fun m => inBlast e m) rem
          have hlen2 : 2 * (rem.filter (fun m => !(inBlast e m))).length +
              (qs ++ rem.filter (fun m => inBlast e m)).length ≤ n := by
            rw [List.length_append]
            simp only [List.length_cons] at hlen
            omega
          have hdisj2 : ∀ e2 ∈ qs ++ rem.filter (fun m => inBlast e m),
              e2 ∉ rem.filter (fun m => !(inBlast e m)) := by
            intro e2 he2 hmem
            rcases List.mem_append.mp he2 with h1 | h1
            · exact hdisj e2 (List.mem_cons_of_mem _ h1)
                (List.mem_of_mem_filter hmem)
            · have hp : inBlast e e2 = true := (List.mem_filter.mp h1).2
              have hnp : (!(inBlast e e2)) = true := (List.mem_filter.mp hmem).2
              rw [hp] at hnp
              cases hnp
          have IH := ih (rem.filter (fun m => !(inBlast e m)))
            (qs ++ rem.filter (fun m => inBlast e m)) hlen2 hdisj2 m
          constructor
          · intro hmem
            rcases List.mem_append.mp hmem with h1 | h1
            · refine ⟨List.mem_of_mem_filter h1, e, List.mem_cons_self _ _, ?_⟩
              exact Relation.ReflTransGen.single
                ⟨List.mem_of_mem_filter h1, (List.mem_filter.mp h1).2⟩
            · obtain ⟨hm2, e2, he2, hpath⟩ := IH.mp h1
              refine ⟨List.mem_of_mem_filter hm2, ?_⟩
              rcases List.mem_append.mp he2 with h2 | h2
              · exact ⟨e2, List.mem_cons_of_mem _ h2,
                  chainEdge_mono _ hpath⟩
              · refine ⟨e, List.mem_cons_self _ _, ?_⟩
                exact Relation.ReflTransGen.head
                  ⟨List.mem_of_mem_filter h2, (List.mem_filter.mp h2).2⟩
                  (chainEdge_mono _ hpath)
          · rintro ⟨hmrem, e2, he2, hpath⟩
            by_cases hmh : inBlast e m = true
            · exact List.mem_append_left _
                (List.mem_filter.mpr ⟨hmrem, hmh⟩)
            · have hm2 : m ∈ rem.filter (fun x => !(inBlast e x)) :=
                List.mem_filter.mpr ⟨hmrem, by simpa using hmh⟩
              have hsplit := reach_split rem (fun x => inBlast e x) e2 m hpath hm2
              have hfin : ∀ h2, Relation.ReflTransGen
                  (chainEdge (rem.filter (fun x => !(inBlast e x)))) h2 m →
                  h2 ∈ qs ++ rem.filter (fun x => inBlast e x) →
                  m ∈ (chainReactions (rem.filter (fun x => !(inBlast e x)))
                    (qs ++ rem.filter (fun x => inBlast e x))).2 := by
                intro h2 hp2 hmem2
                exact IH.mpr ⟨hm2, h2, hmem2, hp2⟩
              rcases hsplit with ⟨h2, hmem2, hp2⟩ | hp2
              · exact List.mem_append_right _
                  (hfin h2 hp2 (List.mem_append_right _ hmem2))
              · rcases List.mem_cons.mp he2 with h3 | h3
                · -- e2 is the pending explosion being processed; its first
                  -- step must enter the blast filter, a contradiction
                  exfalso
                  subst h3
                  rcases Relation.ReflTransGen.cases_head hp2 with h4 | ⟨c, hc1, _⟩
                  · apply hdisj e2 (List.mem_cons_self _ _)
                    rw [h4]
                    exact hmrem
                  · have hcmem : c ∈ rem.filter (fun x => !(inBlast e2 x)) := hc1.1
                    have hcb : (!(inBlast e2 c)) = true :=
                      (List.mem_filter.mp hcmem).2
                    rw [hc1.2] at hcb
                    cases hcb
                · exact List.mem_append_right _
                    (hfin e2 hp2 (List.mem_append_left _ h3))

/-- Each mine explodes at most once: the exploded list keeps distinct ids
and only ever contains mines that were present. -/
theorem chainReactions_nodup :
    ∀ (n : ℕ) (rem queue : List Mine),
      2 * rem.length + queue.length ≤ n → (rem.map Mine.id).Nodup →
      ((chainReactions rem queue).2.map Mine.id).Nodup ∧
      ∀ m ∈ (chainReactions rem queue).2, m ∈ rem := by
  intro n
  induction n with
  | zero =>
      intro rem queue hlen hN
      cases queue with
      | nil => simp [chainReactions]
      | cons e qs => simp at hlen
  | succ n ih =>
      intro rem queue hlen hN
      cases queue with
      | nil => simp [chainReactions]
      | cons e qs =>
          rw [chainReactions_cons]
          have hpart := length_filter_partition (fun m => inBlast e m) rem
          have hlen2 : 2 * (rem.filter (fun m => !(inBlast e m))).length +
              (qs ++ rem.filter (fun m => inBlast e m)).length ≤ n := by
            rw [List.length_append]
            simp only [List.length_cons] at hlen
            omega
          have hsub2 : List.Sublist
              ((rem.filter (fun m => !(inBlast e m))).map Mine.id)
              (rem.map Mine.id) :=
            (List.filter_sublist rem).map Mine.id
          have hN2 : ((rem.filter (fun m => !(inBlast e m))).map Mine.id).Nodup :=
            hN.sublist hsub2
          have IH := ih (rem.filter (fun m => !(inBlast e m)))
            (qs ++ rem.filter (fun m => inBlast e m)) hlen2 hN2
          have hhitsN : ((rem.filter (fun m => inBlast e m)).map Mine.id).Nodup :=
            hN.sublist ((List.filter_sublist rem).map Mine.id)
          constructor
          · rw [List.map_append]
            refine List.Nodup.append hhitsN IH.1 ?_
            intro i hi1 hi2
            obtain ⟨m1, hm1, hid1⟩ := List.mem_map.mp hi1
            obtain ⟨m2, hm2, hid2⟩ := List.mem_map.mp hi2
            have hm2r : m2 ∈ rem.filter (fun m => !(inBlast e m)) :=
              IH.2 m2 hm2
            have heq : m1 = m2 := eq_of_mem_nodup_key Mine.id hN
              (List.mem_of_mem_filter hm1) (List.mem_of_mem_filter hm2r)
              (by rw [hid1, hid2])
            have hp1 : inBlast e m1 = true := (List.mem_filter.mp hm1).2
            have hp2 : (!(inBlast e m2)) = true := (List.mem_filter.mp hm2r).2
            rw [← heq, hp1] at hp2
            cases hp2
          · intro m hm
            rcases List.mem_append.mp hm with h1 | h1
            · exact List.mem_of_mem_filter h1
            · exact List.mem_of_mem_filter (IH.2 m h1)

/-- C7 (confirmed): a single trigger explodes exactly the mines reachable
from the triggered one through the blast edge (distance below the
exploding mine damageRadius plus the neighbour trigger radius); under the
uniform spawn constants the edge is symmetric, so this set is the
connected component; each mine explodes at most once (it is removed before
its effects run) and every explosion carries the same attribution. -/
theorem C7_chain_connected_component (mines : List Mine) (mineId : String)
    (trig : Option String) (m0 : Mine)
    (hN : (mines.map Mine.id).Nodup)
    (hf : mines.find? (fun m => m.id == mineId) = some m0)
    (hUniform : ∀ m ∈ mines, m.radius = .num 20 ∧ m.damageRadius = .num 240 ∧
       (∃ qx : ℚ, m.x = .num qx) ∧ (∃ qy : ℚ, m.y = .num qy)) :
    (∀ m, m ∈ (explodeMineChain mines mineId trig).2.1 ↔
       m ∈ mines ∧ Relation.ReflTransGen (chainEdge mines) m0 m) ∧
    ((explodeMineChain mines mineId trig).2.1.map Mine.id).Nodup ∧
    ((explodeMineChain mines mineId trig).2.2 =
       (explodeMineChain mines mineId trig).2.1.map
         (fun m => Ev.mineExplode m.id m.x m.y trig)) ∧
    (∀ a b, a ∈ mines → b ∈ mines → inBlast a b = inBlast b a) := by
  have hm0mem : m0 ∈ mines := List.mem_of_find?_eq_some hf
  have hm0id2 : m0.id = mineId := by
    have h := List.find?_some hf
    simpa using h
  have hrem0 : mines.eraseP (fun m => m.id == mineId) =
      mines.filter (fun m => !(m.id == mineId)) := eraseP_byId mines mineId hN
  have hres : explodeMineChain mines mineId trig =
      ((chainReactions (mines.filter (fun m => !(m.id == mineId))) [m0]).1,
       m0 :: (chainReactions (mines.filter (fun m => !(m.id == mineId))) [m0]).2,
       (m0 :: (chainReactions (mines.filter (fun m => !(m.id == mineId)))
           [m0]).2).map (fun m => Ev.mineExplode m.id m.x m.y trig)) := by
    unfold explodeMineChain
    rw [hf]
    dsimp only
    rw [hrem0]
  have hdisj : ∀ e ∈ [m0],
      e ∉ mines.filter (fun m => !(m.id == mineId)) := by
    intro e he hmem
    rw [List.mem_singleton.mp he] at hmem
    have := (List.mem_filter.mp hmem).2
    rw [hm0id2] at this
    simp at this
  have hwl := chainReactions_mem
    (2 * (mines.filter (fun m => !(m.id == mineId))).length + 1)
    (mines.filter (fun m => !(m.id == mineId))) [m0] (by simp) hdisj
  have hnd := chainReactions_nodup
    (2 * (mines.filter (fun m => !(m.id == mineId))).length + 1)
    (mines.filter (fun m => !(m.id == mineId))) [m0] (by simp)
    (hN.sublist ((List.filter_sublist mines).map Mine.id))
  refine ⟨?_, ?_, ?_, ?_⟩
  · intro m
    rw [hres]
    dsimp only
    constructor
    · intro hmem
      rcases List.mem_cons.mp hmem with h1 | h1
      · rw [h1]
        exact ⟨hm0mem, Relation.ReflTransGen.refl⟩
      · obtain ⟨hm2, e2, he2, hpath⟩ := (hwl m).mp h1
        rw [List.mem_singleton.mp he2] at hpath
        exact ⟨List.mem_of_mem_filter hm2, chainEdge_mono _ hpath⟩
    · rintro ⟨hm, hpath⟩
      by_cases hmm0 : m = m0
      · rw [hmm0]
        exact List.mem_cons_self _ _
      · have hmid : ¬ m.id = mineId := by
          intro hc
          exact hmm0 (eq_of_mem_nodup_key Mine.id hN hm hm0mem
            (by rw [hc, hm0id2]))
        have hmrem : m ∈ mines.filter (fun x => !(x.id == mineId)) :=
          List.mem_filter.mpr ⟨hm, by simpa using hmid⟩
        have hsplit := reach_split mines (fun x => x.id == mineId) m0 m
          hpath hmrem
        refine List.mem_cons_of_mem _ ((hwl m).mpr ⟨hmrem, m0,
          List.mem_singleton_self _, ?_⟩)
        rcases hsplit with ⟨h2, hmem2, hp2⟩ | hp2
        · have hh2 : h2 = m0 := by
            have h2mem : h2 ∈ mines := List.mem_of_mem_filter hmem2
            have h2id : (h2.id == mineId) = true := (List.mem_filter.mp hmem2).2
            exact eq_of_mem_nodup_key Mine.id hN h2mem hm0mem
              (by rw [show h2.id = mineId from by simpa using h2id, hm0id2])
          rw [hh2] at hp2
          exact hp2
        · exact hp2
  · rw [hres]
    dsimp only
    rw [List.map_cons, List.nodup_cons]
    constructor
    · intro hc
      obtain ⟨m2, hm2, hid2⟩ := List.mem_map.mp hc
      have hm2r := hnd.2 m2 hm2
      have := (List.mem_filter.mp hm2r).2
      rw [show m2.id = mineId from by rw [hid2, hm0id2]] at this
      simp at this
    · exact hnd.1
  · rw [hres]
  · intro a b ha hb
    obtain ⟨har, had, ⟨ax, hax⟩, ⟨ay, hay⟩⟩ := hUniform a ha
    obtain ⟨hbr, hbd, ⟨bx, hbx⟩, ⟨by2, hby⟩⟩ := hUniform b hb
    unfold inBlast
    rw [hax, hay, hbx, hby, har, hbd, hbr, had]
    simp only [jsSub_num, jsMul_num, jsAdd_num]
    have hsym : (bx - ax) * (bx - ax) + (by2 - ay) * (by2 - ay) =
        (ax - bx) * (ax - bx) + (ay - by2) * (ay - by2) := by ring
    rw [hsym]

/-- Inserting an element keeps the previously placed elements in their
relative order. -/
theorem sublist_insertDesc (x : User) (l : List User) :
    List.Sublist l (insertDesc x l) := by
  induction l with
  | nil => simp [insertDesc]
  | cons y ys ih =>
      by_cases h : scoreOf y < scoreOf x
      · simp only [insertDesc, if_pos h]
        exact List.sublist_cons_self x (y :: ys)
      · simp only [insertDesc, if_neg h]
        exact List.cons_sublist_cons.mpr ih

/-- The inserted element appears in the result. -/
theorem mem_insertDesc_self (x : User) (l : List User) :
    x ∈ insertDesc x l := by
  induction l with
  | nil => simp [insertDesc]
  | cons y ys ih =>
      by_cases h : scoreOf y < scoreOf x <;> simp [insertDesc, h, ih]

/-- Old elements survive an insertion. -/
theorem mem_insertDesc {a x : User} {l : List User} (h : a ∈ l) :
    a ∈ insertDesc x l := (sublist_insertDesc x l).subset h

/-- Anything in an insertion is the new element or an old one. -/
theorem mem_of_mem_insertDesc {a x : User} {l : List User}
    (h : a ∈ insertDesc x l) : a = x ∨ a ∈ l := by
  induction l with
  | nil => simpa [insertDesc] using h
  | cons y ys ih =>
      by_cases hcmp : scoreOf y < scoreOf x
      · simp only [insertDesc, if_pos hcmp] at h
        rcases List.mem_cons.mp h with h | h
        · exact Or.inl h
        · exact Or.inr h
      · simp only [insertDesc, if_neg hcmp] at h
        rcases List.mem_cons.mp h with h | h
        · exact Or.inr (by simp [h])
        · rcases ih h with h | h
          · exact Or.inl h
          · exact Or.inr (List.mem_cons_of_mem _ h)

/-- Insertion keeps the accumulator sorted by score descending. -/
theorem insertDesc_sorted {x : User} {l : List User}
    (h : List.Pairwise (fun a b => scoreOf b ≤ scoreOf a) l) :
    List.Pairwise (fun a b => scoreOf b ≤ scoreOf a) (insertDesc x l) := by
  induction l with
  | nil => simp [insertDesc]
  | cons y ys ih =>
      rcases List.pairwise_cons.mp h with ⟨hy, hys⟩
      by_cases hcmp : scoreOf y < scoreOf x
      · simp only [insertDesc, if_pos hcmp]
        refine List.pairwise_cons.mpr ⟨?_, h⟩
        intro z hz
        rcases List.mem_cons.mp hz with hz | hz
        · rw [hz]
          exact le_of_lt hcmp
        · exact le_trans (hy z hz) (le_of_lt hcmp)
      · simp only [insertDesc, if_neg hcmp]
        refine List.pairwise_cons.mpr ⟨?_, ih hys⟩
        intro z hz
        rcases mem_of_mem_insertDesc hz with hz | hz
        · rw [hz]
          exact le_of_not_lt hcmp
        · exact hy z hz

/-- The leaderboard fold keeps the accumulator sorted. -/
theorem getLeaderboard_sorted_aux :
    ∀ (l acc : List User),
      List.Pairwise (fun a b => scoreOf b ≤ scoreOf a) acc →
      List.Pairwise (fun a b => scoreOf b ≤ scoreOf a)
        (l.foldl (fun acc u => insertDesc u acc) acc) := by
  intro l
  induction l with
  | nil => intro acc h; simpa using h
  | cons x xs ih =>
      intro acc h
      simp only [List.foldl_cons]
      exact ih (insertDesc x acc)
        (show List.Pairwise (fun a b => scoreOf b ≤ scoreOf a)
          (insertDesc x acc) from insertDesc_sorted h)

/-- Stability of a single insertion: the new element lands after every
already placed element whose score is at least as large. -/
theorem insertDesc_stable {u v : User} {l : List User}
    (hs : List.Pairwise (fun a b => scoreOf b ≤ scoreOf a) l)
    (hu : u ∈ l) (hle : scoreOf v ≤ scoreOf u) :
    List.Sublist [u, v] (insertDesc v l) := by
  induction l with
  | nil => cases hu
  | cons y ys ih =>
      rcases List.pairwise_cons.mp hs with ⟨hy, hys⟩
      by_cases hcmp : scoreOf y < scoreOf v
      · exfalso
        rcases List.mem_cons.mp hu with h | h
        · exact absurd (lt_of_lt_of_le hcmp (h ▸ hle)) (lt_irrefl _)
        · exact absurd (lt_of_lt_of_le hcmp (le_trans hle (hy u h)))
            (lt_irrefl _)
      · simp only [insertDesc, if_neg hcmp]
        rcases List.mem_cons.mp hu with h | h
        · rw [h]
          exact List.cons_sublist_cons.mpr
            (List.singleton_sublist.mpr (mem_insertDesc_self v ys))
        · exact (ih hys h).cons y

/-- Elements already placed stay in order through the whole fold. -/
theorem foldl_insertDesc_sublist :
    ∀ (l acc : List User),
      List.Sublist acc (l.foldl (fun acc u => insertDesc u acc) acc) := by
  intro l
  induction l with
  | nil => intro acc; exact List.Sublist.refl acc
  | cons x xs ih =>
      intro acc
      simp only [List.foldl_cons]
      exact (sublist_insertDesc x acc).trans (ih (insertDesc x acc))

/-- Stability of the whole fold: if u comes before v in the input and the
score of v is not larger, u stays before v in the output. -/
theorem foldl_insertDesc_stable {u v : User} :
    ∀ (l acc : List User),
      List.Pairwise (fun a b => scoreOf b ≤ scoreOf a) acc →
      scoreOf v ≤ scoreOf u →
      (List.Sublist [u, v] l ∨ (u ∈ acc ∧ v ∈ l) ∨ List.Sublist [u, v] acc) →
      List.Sublist [u, v] (l.foldl (fun acc u => insertDesc u acc) acc) := by
  intro l
  induction l with
  | nil =>
      intro acc hs hle hcase
      rcases hcase with h | ⟨_, hv⟩ | h
      · simp at h
      · cases hv
      · simpa using h
  | cons x xs ih =>
      intro acc hs hle hcase
      simp only [List.foldl_cons]
      have hs2 : List.Pairwise (fun a b => scoreOf b ≤ scoreOf a)
          (insertDesc x acc) := insertDesc_sorted hs
      rcases hcase with h | ⟨hu, hv⟩ | h
      · cases h with
        | cons _ h2 =>
            exact ih (insertDesc x acc) hs2 hle (Or.inl h2)
        | cons₂ _ h2 =>
            exact ih _ hs2 hle (Or.inr (Or.inl
              ⟨mem_insertDesc_self _ _, List.singleton_sublist.mp h2⟩))
      · rcases List.mem_cons.mp hv with hvx | hvxs
        · subst hvx
          exact ih (insertDesc v acc) hs2 hle
            (Or.inr (Or.inr (insertDesc_stable hs hu hle)))
        · exact ih _ hs2 hle (Or.inr (Or.inl ⟨mem_insertDesc hu, hvxs⟩))
      · exact ih _ hs2 hle
          (Or.inr (Or.inr (h.trans (sublist_insertDesc x acc))))

/-- C9 (confirmed): the placement score submitted at endGame is the pure
function of rank given by the specification table (rank one to four map
to 100, 80, 60, 40, rank five and beyond to 20, rank zero meaning absent
to 0), the rank is one-based over the leaderboard sorted by
kills times 100 minus deaths times 50 descending with ties broken by
insertion order, and the submitted value always lies in [0, 100]. -/
theorem C9_placement_score (users : List User) (uid : String) :
    submitScoreClamp (calculatePlacementScore ((getUserRank users uid : ℤ))
        ((users.length : ℤ))) = specPlacementTable (getUserRank users uid) ∧
    List.Pairwise (fun a b => scoreOf b ≤ scoreOf a) (getLeaderboard users) ∧
    (∀ u v, List.Sublist [u, v] users → scoreOf v ≤ scoreOf u →
       List.Sublist [u, v] (getLeaderboard users)) ∧
    0 ≤ submitScoreClamp (calculatePlacementScore ((getUserRank users uid : ℤ))
        ((users.length : ℤ))) ∧
    submitScoreClamp (calculatePlacementScore ((getUserRank users uid : ℤ))
        ((users.length : ℤ))) ≤ 100 := by
  refine ⟨?_, ?_, ?_, ?_, ?_⟩
  · rcases hfi : (getLeaderboard users).findIdx? (fun w => w.id == uid)
      with _ | i
    · simp [getUserRank, hfi, calculatePlacementScore, submitScoreClamp,
        specPlacementTable]
    · have husers : ¬ users = [] := by
        intro h
        rw [h] at hfi
        simp [getLeaderboard] at hfi
      have hlen : ¬ ((users.length : ℤ) = 0) := by
        simpa [Int.natCast_eq_zero, List.length_eq_zero] using husers
      simp only [getUserRank, hfi]
      rcases i with _ | _ | _ | _ | _ | i
      · simp [calculatePlacementScore, submitScoreClamp, specPlacementTable,
          hlen]
      · simp [calculatePlacementScore, submitScoreClamp, specPlacementTable,
          hlen]
      · simp [calculatePlacementScore, submitScoreClamp, specPlacementTable,
          hlen]
      · simp [calculatePlacementScore, submitScoreClamp, specPlacementTable,
          hlen]
      · simp [calculatePlacementScore, submitScoreClamp, specPlacementTable,
          hlen]
      · have h6 : ¬ ((i : ℤ) + 1 + 1 + 1 + 1 + 1 + 1 ≤ 0) := by omega
        have h5 : ¬ ((i : ℤ) + 1 + 1 + 1 + 1 + 1 + 1 ≤ 5) := by omega
        simp [calculatePlacementScore, submitScoreClamp, specPlacementTable,
          hlen, h6, h5]
  · exact getLeaderboard_sorted_aux users [] List.Pairwise.nil
  · intro u v h hle
    exact foldl_insertDesc_stable users [] List.Pairwise.nil hle (Or.inl h)
  · simp only [submitScoreClamp]
    exact le_max_left _ _
  · simp only [submitScoreClamp]
    exact max_le (by norm_num) (min_le_left _ _)

/-- Witness for C9: in a two ship world where both ships have zero kills
and zero deaths (a score tie), the first connected ship stays first on the
leaderboard. -/
theorem C9_placement_score_witness :
    List.Sublist [shipAt "A" 0 0 100, shipAt "B" 0 0 100]
      (getLeaderboard [shipAt "A" 0 0 100, shipAt "B" 0 0 100]) :=
  (C9_placement_score [shipAt "A" 0 0 100, shipAt "B" 0 0 100] "B").2.2.1
    (shipAt "A" 0 0 100) (shipAt "B" 0 0 100)
    (List.Sublist.refl _) (le_refl _)

/-- Witness for C7 on the row fixture: the third mine is two chain edges
away from the triggered first mine, so the component characterisation puts
it in the exploded set. -/
theorem C7_chain_connected_component_witness :
    mineAt "m3" 600 0 ∈ (explodeMineChain c7mines "m1" (some "P")).2.1 := by
  refine ((C7_chain_connected_component c7mines "m1" (some "P")
    (mineAt "m1" 200 0) (by decide) rfl ?_).1 (mineAt "m3" 600 0)).mpr
    ⟨by decide, ?_⟩
  · intro m hm
    simp only [c7mines, List.mem_cons, List.not_mem_nil, or_false] at hm
    rcases hm with h | h | h | h <;> subst h <;>
      exact ⟨rfl, rfl, ⟨_, rfl⟩, ⟨_, rfl⟩⟩
  · exact Relation.ReflTransGen.tail
      (Relation.ReflTransGen.tail Relation.ReflTransGen.refl
        (show chainEdge c7mines (mineAt "m1" 200 0) (mineAt "m2" 400 0) from
          ⟨by decide, by decide⟩))
      (show chainEdge c7mines (mineAt "m2" 400 0) (mineAt "m3" 600 0) from
        ⟨by decide, by decide⟩)

/-- Witness for C8: a cursor:move frame with a non-number (undefined) x
coordinate is rejected wholesale. -/
theorem C8_cursor_validation_witness :
    cursorMoveHandler 1000 1000 [shipAt "A" 5 5 100] "A" .undef (.num 0)
      (.num 0) = ([shipAt "A" 5 5 100], []) :=
  (C8_cursor_validation 1000 1000 [shipAt "A" 5 5 100] "A" .undef (.num 0)
    (.num 0)).1 (Or.inl (by decide))

/-- Witness for C10: a health:damage frame on an existing ship stores the
clamped raw health. -/
theorem C10_health_damage_witness :
    (findUser (healthDamageHandler 0 "S" [shipAt "A" 0 0 100] "A" (.num 42)
        none).1 "A").map User.health = some (clampHealth (.num 42)) :=
  ((C10_health_damage 0 "S" "X" [shipAt "A" 0 0 100] "A" (.num 42)
    none).2.1 (shipAt "A" 0 0 100) rfl).1

/-- Witness for C6: a beam whose owner is present is kept with the owner
current rotation and one frame less duration. -/
theorem C6_laser_owner_refresh_witness :
    (laserTickPlayers (.num 1) (.num 0) [shipAt "O" 0 0 100]
        ⟨"O", .num 0, 120⟩).1 =
      (if (120 : Int) - 1 ≤ 0 then none
       else some ⟨"O", (shipAt "O" 0 0 100).rotation, (120 : Int) - 1⟩) :=
  ((C6_laser_owner_refresh (.num 1) (.num 0) [shipAt "O" 0 0 100]
    ⟨"O", .num 0, 120⟩).2 (shipAt "O" 0 0 100) rfl).1

/-- Witness for C1: a bullet touching a lone full-health ship leaves that
ship at the flat applyDamage 10 result. -/
theorem C1_bullet_hits_flat_witness :
    (findUser (bulletTickUsers 0
        ⟨"b1", "S", .num 0, .num 0, .num 0, .num 0, 100, false⟩
        [shipAt "T" 0 0 100]).1 "T").map User.health =
      some ((applyDamage (shipAt "T" 0 0 100) (.num 10)).1.health) :=
  (C1_bullet_hits_flat 0
    ⟨"b1", "S", .num 0, .num 0, .num 0, .num 0, 100, false⟩
    [shipAt "T" 0 0 100] (by decide)).2.2.2 (shipAt "T" 0 0 100) (by decide)

/-- Witness for C5: a ship with 30 shield hit for 50 loses the whole
shield and only the 20 overflow reaches its health. -/
theorem C5_shield_absorption_witness :
    (applyDamage { shipAt "T" 0 0 80 with shield := JsVal.num 30 }
        (.num 50)).1.shield = .num (30 - min 30 50) ∧
    (applyDamage { shipAt "T" 0 0 80 with shield := JsVal.num 30 }
        (.num 50)).1.health =
      clampHealth (jsMax (.num 0)
        (jsSub ({ shipAt "T" 0 0 80 with shield := JsVal.num 30 } : User).health
          (.num (50 - 30)))) :=
  ⟨(C5_shield_absorption.1 { shipAt "T" 0 0 80 with shield := JsVal.num 30 }
      30 50 rfl (by norm_num) (by norm_num)).1,
   (C5_shield_absorption.1 { shipAt "T" 0 0 80 with shield := JsVal.num 30 }
      30 50 rfl (by norm_num) (by norm_num)).2.2 (by norm_num)⟩

/-- Witness for C2: a mine exploding 100 units from a ship emits the plain
damage health:update for it and no knockback event. -/
theorem C2_mine_explosion_witness :
    Ev.healthUpdate "T"
      (jsMax (.num 0)
        (jsSub (shipAt "T" 100 0 100).health (mineAt "m" 0 0).damage)) none
      ∈ (explodeMine 0 [mineAt "m" 0 0] [shipAt "T" 100 0 100] "m"
          (some "S")).2.2.1 :=
  ((C2_mine_explosion 0 [mineAt "m" 0 0] [shipAt "T" 100 0 100] "m"
    (some "S") (by decide)).2.2 (mineAt "m" 0 0) rfl
    (shipAt "T" 100 0 100) (by decide)).2 (by decide)

/-- Witness for C4: a respawn with random draws one quarter and three
quarters puts the ship at the corresponding interior map point with full
health and the starting weapon. -/
theorem C4_death_respawn_witness :
    findUser (respawnAction 1000 800 [shipAt "A" 3 4 0] "A" (1/4)
        (3/4)).1 "A" =
      some { shipAt "A" 3 4 0 with
        health := .num 100,
        x := .num ((1/4 - 1/2) * 1000),
        y := .num ((3/4 - 1/2) * 800),
        weaponType := "machineGun" } :=
  (C4_death_respawn.2.2.2.2.1 1000 800 [shipAt "A" 3 4 0] "A" (1/4) (3/4)
    (shipAt "A" 3 4 0) rfl (by norm_num) (by norm_num) (by norm_num)
    (by norm_num) (by norm_num) (by norm_num)).1

/-- Witness for C3: a freshly connected ship satisfies the amended
invariant on a 100 by 100 map. -/
theorem C3_invariant_amended_witness :
    shipInv 100 100 (initUser "a" "A") = true :=
  C3_invariant_amended 100 100 (by norm_num) (by norm_num)
    (initUser "a" "A") (ReachP.init "a" "A")

end AwesomeGame
